import Mathlib

/-!
Verification of the SuperConductor playout scheduling engine.

This file gives a shallow embedding of the parts of the code base that the
frozen claims are about:

* the play/pause/stop playout state machine of `IPCServer._playPart` and
  `IPCServer._pausePart` (src/apps/app/src/electron/IPCServer.ts);
* the undo ledger maintained by the `IPCServer` constructor and the
  `undo`/`redo` methods;
* the structural-edit commands `insertGroups`, `insertParts`, `updatePart`,
  `updateGroup`, `toggleGroupLock`;
* the timeline materializer `getTimelineForGroup` / `sectionToTimelineObj` /
  `partToTimelineObj` / `changeTimelineId` (src/unnamed/part_001);
* the `SessionHandler` debounced notification layer (src/unnamed/part_000).

JavaScript strings are modelled as `List Char`, JS numbers that carry times
as `Int` (they are integral epoch milliseconds in the source), `undefined`
as `Option.none`, JS objects used as string-keyed records as association
lists with unique keys, and JS `Map` iteration order as list order.
-/

set_option linter.unusedVariables false

namespace SuperConductor

/-- Character-list strings, the representation used for all JS strings. -/
abbrev Str := List Char

/-- Reading a property of a JS object used as a dictionary: first match wins
(JS objects cannot hold a key twice). -/
def lookupA {α : Type} (m : List (Str × α)) (k : Str) : Option α :=
  match m with
  | [] => none
  | (k', v) :: rest => if k' = k then some v else lookupA rest k

/-- Writing a property of a JS object used as a dictionary: an existing key is
updated in place, a new key is appended (JS insertion order). -/
def setA {α : Type} (m : List (Str × α)) (k : Str) (v : α) : List (Str × α) :=
  match m with
  | [] => [(k, v)]
  | (k', v') :: rest => if k' = k then (k, v) :: rest else (k', v') :: setA rest k v

/-- The keys of an association list. -/
abbrev keysA {α : Type} (m : List (Str × α)) : List Str := m.map Prod.fst

theorem mem_keysA_setA {α : Type} (m : List (Str × α)) (k a : Str) (v : α) :
    a ∈ keysA (setA m k v) ↔ a ∈ keysA m ∨ a = k := by
  induction m with
  | nil => simp [setA, keysA]
  | cons hd tl ih =>
    obtain ⟨k', v'⟩ := hd
    by_cases hk : k' = k
    · simp only [setA]
      rw [if_pos hk]
      simp only [keysA, List.map_cons, List.mem_cons, hk]
      tauto
    · simp only [setA]
      rw [if_neg hk]
      simp only [keysA, List.map_cons, List.mem_cons] at ih ⊢
      rw [ih]
      tauto

theorem nodup_keysA_setA {α : Type} (m : List (Str × α)) (k : Str) (v : α)
    (h : (keysA m).Nodup) : (keysA (setA m k v)).Nodup := by
  induction m with
  | nil => simp [setA, keysA]
  | cons hd tl ih =>
    obtain ⟨k', v'⟩ := hd
    simp only [keysA, List.map_cons, List.nodup_cons] at h
    obtain ⟨hk', htl⟩ := h
    by_cases hk : k' = k
    · simp only [setA]
      rw [if_pos hk]
      simp only [keysA, List.map_cons, List.nodup_cons]
      exact ⟨hk ▸ hk', htl⟩
    · simp only [setA]
      rw [if_neg hk]
      simp only [keysA, List.map_cons, List.nodup_cons]
      refine ⟨?_, ih htl⟩
      intro hmem
      rcases (mem_keysA_setA tl k k' v).mp hmem with h | h
      · exact hk' h
      · exact hk h

theorem lookupA_setA_self {α : Type} (m : List (Str × α)) (k : Str) (v : α) :
    lookupA (setA m k v) k = some v := by
  induction m with
  | nil => simp [setA, lookupA]
  | cons hd tl ih =>
    obtain ⟨k', v'⟩ := hd
    by_cases hk : k' = k
    · subst hk; simp [setA, lookupA]
    · simp [setA, lookupA, hk, ih]

/-! ## Playout state machine (`IPCServer._playPart`, `IPCServer._pausePart`)

Source: src/apps/app/src/electron/IPCServer.ts, lines 402-495. -/

/-- An entry of `Group.playout.playingParts` (spec section 3): absence of
`pauseTime` and `stopTime` means actively playing from `startTime`. -/
structure PlayingPart where
  startTime : Int
  pauseTime : Option Int
  stopTime : Option Int
  fromSchedule : Bool
deriving DecidableEq, Repr

/-- The slice of a Part that `_playPart`/`_pausePart` read. -/
structure PartRef where
  id : Str
  disabled : Bool
deriving DecidableEq, Repr

/-- The slice of a Group that the playout state machine reads and writes. -/
structure GroupPlayout where
  oneAtATime : Bool
  playingParts : List (Str × PlayingPart)
deriving DecidableEq, Repr

/-- `IPCServer._playPart` (IPCServer.ts 402-419): a disabled part is ignored;
with `oneAtATime` everything already playing is dropped; then the part is
started at `now`. -/
def playPart (g : GroupPlayout) (part : PartRef) (now : Int) : GroupPlayout :=
  if part.disabled then g
  else
    let pp := if g.oneAtATime then [] else g.playingParts
    { g with playingParts := setA pp part.id ⟨now, none, none, false⟩ }

/-- The playhead fields of `GroupPlayDataPlayhead` that `_pausePart` reads. -/
structure GroupPlayDataPlayhead where
  partStartTime : Int
  partPauseTime : Option Int
deriving DecidableEq, Repr

/-- Modelled from the spec: `getGroupPlayData` (src/apps/app/src/lib/playhead.ts)
and `updateGroupPlayingParts` (src/apps/app/src/lib/util.ts) are not under
src/.  Per spec sections 4.1 and 4.2, for a part whose `playingParts` entry is
present the resolved playhead reports the entry's `startTime` as
`partStartTime` and its `pauseTime` as `partPauseTime` (a paused part is
frozen at that offset); an entry stopped before `now` resolves to no
playhead, and an absent entry resolves to no playhead. -/
def resolvePlayheadForPart (now : Int) (pp : Option PlayingPart) :
    Option GroupPlayDataPlayhead :=
  match pp with
  | none => none
  | some p =>
    match p.stopTime with
    | some st => if st < now then none else some ⟨p.startTime, p.pauseTime⟩
    | none => some ⟨p.startTime, p.pauseTime⟩

/-- The stop-the-others loop of `_pausePart` (IPCServer.ts 452-459): every
entry whose key differs from `pid` gets `stopTime = now`. -/
def stopOthers (m : List (Str × PlayingPart)) (pid : Str) (now : Int) :
    List (Str × PlayingPart) :=
  m.map (fun e => if e.1 = pid then e else (e.1, { e.2 with stopTime := some now }))

/-- The fresh `playingParts` entry that `_pausePart` writes for the target
part (IPCServer.ts 464-494): pause if playing, resume if paused, cue
otherwise.  All three branches leave `stopTime` undefined. -/
def pausedEntry (playhead : Option GroupPlayDataPlayhead) (pauseTimeArg : Option Int)
    (now : Int) : PlayingPart :=
  match playhead with
  | some ph =>
    match ph.partPauseTime with
    | none =>
      -- the part is playing, so it should be paused
      ⟨ph.partStartTime, some (pauseTimeArg.getD (now - ph.partStartTime)), none, false⟩
    | some partPauseTime =>
      -- the part is paused, so it should be resumed
      ⟨now - partPauseTime, none, none, false⟩
  | none =>
    -- part is not playing, cue (pause) it at the time specified
    ⟨now, some (pauseTimeArg.getD 0), none, false⟩

/-- `IPCServer._pausePart` (IPCServer.ts 445-495): a disabled part is ignored;
with `oneAtATime` every other playing part is stopped at `now`; then the part
is paused, resumed or cued.  The playhead is resolved from the prepared play
data cached before the call, i.e. from the state of `playingParts` before the
stop-the-others loop. -/
def pausePart (g : GroupPlayout) (part : PartRef) (pauseTimeArg : Option Int)
    (now : Int) : GroupPlayout :=
  if part.disabled then g
  else
    let pp1 := if g.oneAtATime then stopOthers g.playingParts part.id now else g.playingParts
    let playhead := resolvePlayheadForPart now (lookupA g.playingParts part.id)
    { g with playingParts := setA pp1 part.id (pausedEntry playhead pauseTimeArg now) }

/-- A play or pause command aimed at a group, as dispatched by the IPC
methods `playPart` / `pausePart`. -/
inductive PlayoutOp where
  | play (part : PartRef) (now : Int)
  | pause (part : PartRef) (pauseTimeArg : Option Int) (now : Int)

def applyPlayoutOp (g : GroupPlayout) : PlayoutOp → GroupPlayout
  | .play part now => playPart g part now
  | .pause part pauseTimeArg now => pausePart g part pauseTimeArg now

def applyPlayoutOps (g : GroupPlayout) (ops : List PlayoutOp) : GroupPlayout :=
  ops.foldl applyPlayoutOp g

/-- The number of `playingParts` entries that are not stopped. -/
def activeCount (m : List (Str × PlayingPart)) : Nat :=
  (m.filter (fun e => e.2.stopTime = none)).length

theorem pausedEntry_stopTime (playhead : Option GroupPlayDataPlayhead)
    (pauseTimeArg : Option Int) (now : Int) :
    (pausedEntry playhead pauseTimeArg now).stopTime = none := by
  cases playhead with
  | none => rfl
  | some ph =>
    obtain ⟨ps, pt⟩ := ph
    cases pt <;> rfl

theorem oneAtATime_playPart (g : GroupPlayout) (p : PartRef) (now : Int) :
    (playPart g p now).oneAtATime = g.oneAtATime := by
  unfold playPart
  by_cases h : p.disabled <;> simp [h]

theorem oneAtATime_pausePart (g : GroupPlayout) (p : PartRef) (t : Option Int) (now : Int) :
    (pausePart g p t now).oneAtATime = g.oneAtATime := by
  unfold pausePart
  by_cases h : p.disabled <;> simp [h]

theorem keysA_stopOthers (m : List (Str × PlayingPart)) (pid : Str) (now : Int) :
    keysA (stopOthers m pid now) = keysA m := by
  induction m with
  | nil => rfl
  | cons hd tl ih =>
    simp only [stopOthers, keysA, List.map_cons] at ih ⊢
    by_cases h : hd.1 = pid
    · rw [if_pos h, ih]
    · rw [if_neg h, ih]

theorem nodup_keysA_playPart (g : GroupPlayout) (p : PartRef) (now : Int)
    (h : (keysA g.playingParts).Nodup) :
    (keysA (playPart g p now).playingParts).Nodup := by
  unfold playPart
  by_cases hd : p.disabled
  · simpa [hd]
  · by_cases h1 : g.oneAtATime
    · simp [hd, h1, setA, keysA]
    · simp only [hd, if_false, h1, if_false]
      exact nodup_keysA_setA _ _ _ h

theorem nodup_keysA_pausePart (g : GroupPlayout) (p : PartRef) (t : Option Int) (now : Int)
    (h : (keysA g.playingParts).Nodup) :
    (keysA (pausePart g p t now).playingParts).Nodup := by
  unfold pausePart
  by_cases hd : p.disabled
  · simpa [hd]
  · simp only [hd, if_false]
    by_cases h1 : g.oneAtATime
    · simp only [h1, if_true]
      exact nodup_keysA_setA _ _ _ (by rw [keysA_stopOthers]; exact h)
    · simp only [h1, if_false]
      exact nodup_keysA_setA _ _ _ h

theorem activeCount_le_one_cons_stopped (k : Str) (v : PlayingPart)
    (rest : List (Str × PlayingPart)) (hv : v.stopTime ≠ none)
    (h : activeCount rest ≤ 1) : activeCount ((k, v) :: rest) ≤ 1 := by
  simpa [activeCount, List.filter_cons, hv] using h

/-- After the stop-the-others loop plus the write of the target entry, at most
the target entry is active: every key other than the target key is stopped. -/
theorem activeCount_setA_le_one (m : List (Str × PlayingPart)) (k : Str) (v : PlayingPart)
    (hnd : (keysA m).Nodup)
    (hstopped : ∀ e ∈ m, e.1 ≠ k → e.2.stopTime ≠ none) :
    activeCount (setA m k v) ≤ 1 := by
  induction m with
  | nil =>
    by_cases hv : v.stopTime = none <;> simp [setA, activeCount, List.filter_cons, hv]
  | cons hd tl ih =>
    obtain ⟨k', v'⟩ := hd
    simp only [keysA, List.map_cons, List.nodup_cons] at hnd
    obtain ⟨hk'mem, hndtl⟩ := hnd
    by_cases hk : k' = k
    · -- the head entry is replaced by the fresh entry; every entry of the
      -- tail has a different key (Nodup) and hence is stopped
      have htl : activeCount tl = 0 := by
        simp only [activeCount, List.length_eq_zero, List.filter_eq_nil_iff]
        intro e he
        have hne : e.1 ≠ k := by
          intro heq
          exact hk'mem (hk ▸ heq ▸ List.mem_map_of_mem Prod.fst he)
        have := hstopped e (List.mem_cons_of_mem _ he) hne
        simpa using this
      simp only [setA]
      rw [if_pos hk]
      have htl' : (List.filter (fun e => decide (e.2.stopTime = none)) tl).length = 0 := htl
      simp only [activeCount, List.filter_cons]
      by_cases hv : v.stopTime = none
      · rw [if_pos (by simp [hv])]
        simp only [List.length_cons]
        omega
      · rw [if_neg (by simp [hv])]
        omega
    · have hv' : v'.stopTime ≠ none :=
        hstopped (k', v') (List.mem_cons_self _ _) (by simpa using hk)
      have hrec := ih hndtl (fun e he hne => hstopped e (List.mem_cons_of_mem _ he) hne)
      simp only [setA, if_neg hk]
      exact activeCount_le_one_cons_stopped k' v' _ hv' hrec

theorem stopOthers_stopped (m : List (Str × PlayingPart)) (pid : Str) (now : Int) :
    ∀ e ∈ stopOthers m pid now, e.1 ≠ pid → e.2.stopTime ≠ none := by
  intro e he hne
  simp only [stopOthers, List.mem_map] at he
  obtain ⟨e0, he0, heq⟩ := he
  by_cases h0 : e0.1 = pid
  · rw [if_pos h0] at heq
    exact absurd (heq ▸ h0) hne
  · rw [if_neg h0] at heq
    rw [← heq]
    simp

/-- One step of the solo invariant: a play or pause command keeps
`activeCount ≤ 1` for a `oneAtATime` group. -/
theorem solo_step (g : GroupPlayout) (op : PlayoutOp)
    (h1 : g.oneAtATime = true)
    (hnd : (keysA g.playingParts).Nodup)
    (h : activeCount g.playingParts ≤ 1) :
    activeCount (applyPlayoutOp g op).playingParts ≤ 1 := by
  cases op with
  | play part now =>
    show activeCount (playPart g part now).playingParts ≤ 1
    unfold playPart
    by_cases hdis : part.disabled
    · simpa [hdis]
    · simp [hdis, h1, setA, activeCount, List.filter_cons]
  | pause part pauseTimeArg now =>
    show activeCount (pausePart g part pauseTimeArg now).playingParts ≤ 1
    unfold pausePart
    by_cases hdis : part.disabled
    · simpa [hdis]
    · simp only [hdis, if_false, h1, if_true]
      exact activeCount_setA_le_one _ _ _
        (by rw [keysA_stopOthers]; exact hnd)
        (stopOthers_stopped g.playingParts part.id now)

/-- C1: for every Group with `oneAtATime = true`, after any sequence of
`playPart`/`pausePart` commands, at most one entry of
`group.playout.playingParts` has `stopTime` undefined (solo semantics:
`_playPart` clears all other playing entries, `_pausePart` stops all other
entries).  The starting state has JS-object keys (unique) and satisfies the
invariant; every command preserves it. -/
theorem C1_solo_invariant (g : GroupPlayout) (ops : List PlayoutOp)
    (h1 : g.oneAtATime = true)
    (hnd : (keysA g.playingParts).Nodup)
    (h : activeCount g.playingParts ≤ 1) :
    activeCount (applyPlayoutOps g ops).playingParts ≤ 1 := by
  induction ops generalizing g with
  | nil => exact h
  | cons op rest ih =>
    have hstep : applyPlayoutOps g (op :: rest) = applyPlayoutOps (applyPlayoutOp g op) rest := rfl
    rw [hstep]
    have h1' : (applyPlayoutOp g op).oneAtATime = true := by
      cases op with
      | play part now => rw [show applyPlayoutOp g (PlayoutOp.play part now) = playPart g part now from rfl, oneAtATime_playPart]; exact h1
      | pause part t now => rw [show applyPlayoutOp g (PlayoutOp.pause part t now) = pausePart g part t now from rfl, oneAtATime_pausePart]; exact h1
    have hnd' : (keysA (applyPlayoutOp g op).playingParts).Nodup := by
      cases op with
      | play part now => exact nodup_keysA_playPart g part now hnd
      | pause part t now => exact nodup_keysA_pausePart g part t now hnd
    exact ih _ h1' hnd' (solo_step g op h1 hnd h)

theorem C1_solo_invariant_witness :
    activeCount (applyPlayoutOps ⟨true, []⟩
      [PlayoutOp.play ⟨("a").toList, false⟩ 100,
       PlayoutOp.play ⟨("b").toList, false⟩ 150,
       PlayoutOp.pause ⟨("c").toList, false⟩ none 200,
       PlayoutOp.pause ⟨("c").toList, false⟩ none 300]).playingParts ≤ 1 :=
  C1_solo_invariant ⟨true, []⟩ _ rfl (by decide) (by decide)

/-- Modelled from the spec (section 4.1): the resolved elapsed offset of an
unpaused entry at time `t` advances as `t - startTime`; a paused entry is
frozen at its `pauseTime` offset. -/
def resolvedOffset (pp : PlayingPart) (t : Int) : Int :=
  match pp.pauseTime with
  | some pt => pt
  | none => t - pp.startTime

/-- C2: `playPart` at `t0`, `pausePart` (no explicit time) at `t1 > t0`,
`pausePart` again at `t2 > t1` leaves the part's `playingParts` entry with
`pauseTime` undefined and `startTime = t2 - (t1 - t0)`; the resolved elapsed
offset immediately after the resume equals `t1 - t0` and keeps advancing
from there (`(t - t2) + (t1 - t0)` at any `t`). -/
theorem C2_pause_resume_round_trip (g : GroupPlayout) (p : PartRef)
    (t0 t1 t2 : Int) (hdis : p.disabled = false) (h01 : t0 < t1) (h12 : t1 < t2) :
    lookupA (applyPlayoutOps g
        [PlayoutOp.play p t0, PlayoutOp.pause p none t1, PlayoutOp.pause p none t2]).playingParts
        p.id
      = some ⟨t2 - (t1 - t0), none, none, false⟩ ∧
    resolvedOffset ⟨t2 - (t1 - t0), none, none, false⟩ t2 = t1 - t0 ∧
    (∀ t : Int, resolvedOffset ⟨t2 - (t1 - t0), none, none, false⟩ t = (t - t2) + (t1 - t0)) := by
  have hnd : ¬ p.disabled = true := by simp [hdis]
  have l1 : lookupA (playPart g p t0).playingParts p.id = some ⟨t0, none, none, false⟩ := by
    unfold playPart
    rw [if_neg hnd]
    exact lookupA_setA_self _ _ _
  have l2 : lookupA (pausePart (playPart g p t0) p none t1).playingParts p.id
      = some ⟨t0, some (t1 - t0), none, false⟩ := by
    unfold pausePart
    rw [if_neg hnd]
    simp only [l1, resolvePlayheadForPart, pausedEntry, Option.getD]
    exact lookupA_setA_self _ _ _
  have l3 : lookupA (pausePart (pausePart (playPart g p t0) p none t1) p none t2).playingParts p.id
      = some ⟨t2 - (t1 - t0), none, none, false⟩ := by
    generalize hg2 : pausePart (playPart g p t0) p none t1 = g2 at l2 ⊢
    unfold pausePart
    rw [if_neg hnd]
    simp only [l2, resolvePlayheadForPart, pausedEntry]
    exact lookupA_setA_self _ _ _
  refine ⟨l3, by simp [resolvedOffset], fun t => by simp [resolvedOffset]; ring⟩

theorem C2_pause_resume_round_trip_witness :
    lookupA (applyPlayoutOps ⟨false, []⟩
        [PlayoutOp.play ⟨("a").toList, false⟩ 100,
         PlayoutOp.pause ⟨("a").toList, false⟩ none 250,
         PlayoutOp.pause ⟨("a").toList, false⟩ none 400]).playingParts ("a").toList
      = some ⟨250, none, none, false⟩ :=
  (C2_pause_resume_round_trip ⟨false, []⟩ ⟨("a").toList, false⟩ 100 250 400 rfl
    (by decide) (by decide)).1

/-! ## Undo ledger

Source: the `ipcMain.handle` wrapper in the `IPCServer` constructor
(IPCServer.ts 146-181) and the `undo`/`redo` methods (IPCServer.ts 230-258).
The stored `undo`/`redo` closures are reified as outcome flags: `undoFails`
(resp. `redoFails`) says whether invoking the stored closure throws, and
`freshUndoFails` is the behaviour of the replacement `undo` closure returned
by a successful `redo` (the redo re-runs the command against possibly
changed state, so the fresh inverse may behave differently). -/

/-- An entry of the undo ledger (`Action` in IPCServer.ts 77-82). -/
structure Action where
  description : Str
  undoFails : Bool
  redoFails : Bool
  freshUndoFails : Bool
deriving DecidableEq, Repr

structure UndoLedgerState where
  undoLedger : List Action
  undoPointer : Int
deriving DecidableEq, Repr

/-- The ledger update performed when a command returns an undoable result
(IPCServer.ts 150-163): clear any future entries, push the new action, evict
the oldest entries past the maximum, point at the last entry.
`MAX_UNDO_LEDGER_LENGTH` is imported from `ipc/IPCAPI.ts`, which is not
under src/: the maximum is kept as the parameter `maxLen`. -/
def ledgerTruncate (st : UndoLedgerState) (a : Action) : List Action :=
  st.undoLedger.take (st.undoPointer + 1).toNat ++ [a]

def ledgerEvict (maxLen : Nat) (l : List Action) : List Action :=
  if maxLen < l.length then l.drop (l.length - maxLen) else l

def ledgerPush (maxLen : Nat) (st : UndoLedgerState) (a : Action) : UndoLedgerState :=
  { undoLedger := ledgerEvict maxLen (ledgerTruncate st a),
    undoPointer := ((ledgerEvict maxLen (ledgerTruncate st a)).length : Int) - 1 }

/-- The wrapper pushes only undoable results; a command returning `undefined`
leaves the ledger untouched (IPCServer.ts 150, 168-170). -/
def handleCommandResult (maxLen : Nat) (st : UndoLedgerState) (result : Option Action) :
    UndoLedgerState :=
  match result with
  | some a => ledgerPush maxLen st a
  | none => st

/-- `this.undoLedger[i]`: JS indexing yields `undefined` out of range. -/
def ledgerGet (st : UndoLedgerState) (i : Int) : Option Action :=
  if i < 0 then none else st.undoLedger.get? i.toNat

/-- `IPCServer.undo` (IPCServer.ts 230-243).  Reading `.undo` of an undefined
action, or the stored closure throwing, is caught by the `try`/`catch`,
which clears the whole ledger and resets the pointer; the exception does not
propagate (the method returns normally in every case). -/
def undoStep (st : UndoLedgerState) : UndoLedgerState :=
  match ledgerGet st st.undoPointer with
  | none => ⟨[], -1⟩
  | some a => if a.undoFails then ⟨[], -1⟩ else ⟨st.undoLedger, st.undoPointer - 1⟩

/-- `IPCServer.redo` (IPCServer.ts 244-258): on success the ledger entry's
`undo` is replaced by the fresh inverse returned by the re-run and the
pointer advances; any throw clears the ledger. -/
def redoStep (st : UndoLedgerState) : UndoLedgerState :=
  match ledgerGet st (st.undoPointer + 1) with
  | none => ⟨[], -1⟩
  | some a =>
    if a.redoFails then ⟨[], -1⟩
    else
      ⟨st.undoLedger.set (st.undoPointer + 1).toNat { a with undoFails := a.freshUndoFails },
        st.undoPointer + 1⟩

/-- C4: completing a command with an undoable result truncates the entries
after the pointer and appends the new entry (the new ledger is a suffix of
`take (pointer+1) ++ [new]`, i.e. only oldest entries can have been
evicted), keeps the length within the maximum, keeps the new entry as the
last one, and leaves the pointer at the last entry. -/
theorem C4_undo_ledger_bound (maxLen : Nat) (st : UndoLedgerState) (a : Action)
    (hmax : 1 ≤ maxLen) :
    ((ledgerPush maxLen st a).undoLedger <:+
        st.undoLedger.take (st.undoPointer + 1).toNat ++ [a]) ∧
    (ledgerPush maxLen st a).undoLedger.length ≤ maxLen ∧
    (ledgerPush maxLen st a).undoLedger.getLast? = some a ∧
    (ledgerPush maxLen st a).undoPointer = ((ledgerPush maxLen st a).undoLedger.length : Int) - 1
    := by
  have hsuffix : ∀ l : List Action, ledgerEvict maxLen l <:+ l := by
    intro l
    unfold ledgerEvict
    by_cases hlen : maxLen < l.length
    · rw [if_pos hlen]; exact List.drop_suffix _ _
    · rw [if_neg hlen]
  have hlenle : (ledgerEvict maxLen (ledgerTruncate st a)).length ≤ maxLen := by
    unfold ledgerEvict
    by_cases hlen : maxLen < (ledgerTruncate st a).length
    · rw [if_pos hlen, List.length_drop]; omega
    · rw [if_neg hlen]; omega
  have hlast : (ledgerEvict maxLen (ledgerTruncate st a)).getLast? = some a := by
    unfold ledgerEvict ledgerTruncate
    by_cases hlen : maxLen < (ledgerTruncate st a).length
    · rw [if_pos (by exact hlen)]
      rw [List.drop_append_of_le_length (by
        unfold ledgerTruncate at hlen
        simp at hlen ⊢
        omega)]
      exact List.getLast?_concat _
    · rw [if_neg (by exact hlen)]
      exact List.getLast?_concat _
  exact ⟨hsuffix _, hlenle, hlast, rfl⟩

theorem C4_undo_ledger_bound_witness :
    ((ledgerPush 2 ⟨[⟨("x").toList, false, false, false⟩, ⟨("y").toList, false, false, false⟩], 1⟩
        ⟨("z").toList, false, false, false⟩).undoLedger <:+
      ([⟨("x").toList, false, false, false⟩,
        ⟨("y").toList, false, false, false⟩] : List Action).take 2 ++
        [⟨("z").toList, false, false, false⟩]) ∧
    (ledgerPush 2 ⟨[⟨("x").toList, false, false, false⟩, ⟨("y").toList, false, false, false⟩], 1⟩
        ⟨("z").toList, false, false, false⟩).undoLedger.length ≤ 2 ∧
    (ledgerPush 2 ⟨[⟨("x").toList, false, false, false⟩, ⟨("y").toList, false, false, false⟩], 1⟩
        ⟨("z").toList, false, false, false⟩).undoLedger.getLast?
      = some ⟨("z").toList, false, false, false⟩ ∧
    (ledgerPush 2 ⟨[⟨("x").toList, false, false, false⟩, ⟨("y").toList, false, false, false⟩], 1⟩
        ⟨("z").toList, false, false, false⟩).undoPointer
      = ((ledgerPush 2 ⟨[⟨("x").toList, false, false, false⟩,
          ⟨("y").toList, false, false, false⟩], 1⟩
          ⟨("z").toList, false, false, false⟩).undoLedger.length : Int) - 1 :=
  C4_undo_ledger_bound 2 ⟨[⟨("x").toList, false, false, false⟩,
    ⟨("y").toList, false, false, false⟩], 1⟩ ⟨("z").toList, false, false, false⟩ (by decide)

/-- C5: if executing the stored inverse during `undo()` throws (including the
degenerate case where there is no action at the pointer, so that reading
`.undo` of `undefined` throws), or re-invoking the original command during
`redo()` throws, the entire undo ledger is cleared and the pointer is reset
to `-1`.  `undoStep`/`redoStep` are total functions: the `try`/`catch` in
the source means the exception never propagates to the caller. -/
theorem C5_undo_redo_failure_clears (st : UndoLedgerState) :
    ((∀ a, ledgerGet st st.undoPointer = some a → a.undoFails = true) →
      undoStep st = ⟨[], -1⟩) ∧
    ((∀ a, ledgerGet st (st.undoPointer + 1) = some a → a.redoFails = true) →
      redoStep st = ⟨[], -1⟩) := by
  constructor
  · intro h
    unfold undoStep
    cases hget : ledgerGet st st.undoPointer with
    | none => rfl
    | some a => simp [h a hget]
  · intro h
    unfold redoStep
    cases hget : ledgerGet st (st.undoPointer + 1) with
    | none => rfl
    | some a => simp [h a hget]

theorem C5_undo_redo_failure_clears_witness :
    undoStep ⟨[⟨("x").toList, true, false, false⟩], 0⟩ = ⟨[], -1⟩ :=
  (C5_undo_redo_failure_clears ⟨[⟨("x").toList, true, false, false⟩], 0⟩).1 (by decide)

/-! ## Structural-edit commands

Source: `updatePart` (IPCServer.ts 883-925), `updateGroup` (1038-1086),
`toggleGroupLock` (1975-1993), `insertParts` (725-829), `insertGroups`
(947-1037).  The entities carry exactly the fields those commands read or
write. -/

/-- The slice of a Part that the modelled commands touch. -/
structure PartModel where
  id : Str
  name : Str
  locked : Bool
deriving DecidableEq, Repr

/-- The slice of `Group.schedule` that `updateGroup` reads
(`schedule?.activate`). -/
structure ScheduleSettings where
  activate : Bool
deriving DecidableEq, Repr

/-- The slice of a Group that the modelled commands touch. -/
structure GroupModel where
  id : Str
  name : Str
  transparent : Bool
  locked : Bool
  schedule : Option ScheduleSettings
  playingParts : List (Str × PlayingPart)
  parts : List PartModel
deriving DecidableEq, Repr

structure RundownModel where
  id : Str
  groups : List GroupModel
deriving DecidableEq, Repr

def findGroup (rd : RundownModel) (groupId : Str) : Option GroupModel :=
  rd.groups.find? (fun g => g.id = groupId)

def findPart (g : GroupModel) (partId : Str) : Option PartModel :=
  g.parts.find? (fun p => p.id = partId)

/-- A `Partial<Part>` patch as passed to `updatePart`; a field that is
`none` is absent from the patch (`has(arg.part, field) = false`). -/
structure PartUpdate where
  name : Option Str
  locked : Option Bool
deriving DecidableEq, Repr

/-- `Object.assign(part, arg.part)`: present patch fields overwrite. -/
def assignPart (p : PartModel) (u : PartUpdate) : PartModel :=
  { p with name := u.name.getD p.name, locked := u.locked.getD p.locked }

/-- `IPCServer.updatePart` (IPCServer.ts 883-925), at the level of the found
group: `undefined` (here `none`) when the group is locked, or when the part
is locked and the patch has no `locked` key; otherwise the patch is applied
to the part (ids are unique within a group, so replacing every part with the
target id equals the source's in-place mutation of the found part). -/
def updatePart (g : GroupModel) (partId : Str) (u : PartUpdate) :
    Except Str (Option GroupModel) :=
  match findPart g partId with
  | none => Except.error (("Part not found in group").toList)
  | some part =>
    if g.locked then Except.ok none
    else if part.locked && !u.locked.isSome then Except.ok none
    else Except.ok (some { g with
      parts := g.parts.map (fun p => if p.id = partId then assignPart p u else p) })

/-- `IPCServer.toggleGroupLock` (IPCServer.ts 1975-1993): no locked guard at
all; the group's `locked` flag is set and an undoable result is always
returned. -/
def toggleGroupLock (g : GroupModel) (value : Bool) : Except Str (Option GroupModel) :=
  Except.ok (some { g with locked := value })

/-- A `PartialDeep<Group>` patch restricted to the modelled fields. -/
structure GroupUpdate where
  name : Option Str
  scheduleActivate : Option Bool
deriving DecidableEq, Repr

/-- `deepExtend(group, arg.group)` restricted to the modelled fields: a patch
carrying `schedule.activate` deep-merges into the schedule object, creating
it if absent. -/
def deepExtendGroup (g : GroupModel) (u : GroupUpdate) : GroupModel :=
  { g with
    name := u.name.getD g.name
    schedule :=
      match u.scheduleActivate with
      | none => g.schedule
      | some v => some ⟨v⟩ }

/-- JS truthiness of `group.schedule?.activate`. -/
def scheduleActivateTruthy (g : GroupModel) : Bool :=
  match g.schedule with
  | none => false
  | some s => s.activate

/-- JS truthiness of a numeric `stopTime` field: `undefined` and `0` are
falsy, any other number is truthy. -/
def truthyOptInt : Option Int → Bool
  | none => false
  | some n => n != 0

/-- `IPCServer.updateGroup` (IPCServer.ts 1038-1086): locked groups return
`undefined`; otherwise the patch is deep-merged and, when the merge turns
`schedule?.activate` from falsy to truthy, every `playingParts` entry whose
`stopTime` is truthy is deleted. -/
def updateGroup (g : GroupModel) (u : GroupUpdate) : Option GroupModel :=
  if g.locked then none
  else
    let merged := deepExtendGroup g u
    if !scheduleActivateTruthy g && scheduleActivateTruthy merged then
      some { merged with
        playingParts := merged.playingParts.filter (fun e => !truthyOptInt e.2.stopTime) }
    else some merged

/-- C7 as frozen is refuted by `updatePart`: with an unlocked group and a
locked part, a patch that contains the `locked` key (here together with a
`name` change) is applied and returns an undoable result, although
`updatePart` is not a command whose entire purpose is to toggle the lock.
The part named x with `locked = true` gets renamed to y. -/
theorem C7_counterexample :
    updatePart
      ⟨("g1").toList, ("grp").toList, false, false, none, [],
        [⟨("p1").toList, ("x").toList, true⟩]⟩
      (("p1").toList) ⟨some (("y").toList), some true⟩
    = Except.ok (some ⟨("g1").toList, ("grp").toList, false, false, none, [],
        [⟨("p1").toList, ("y").toList, true⟩]⟩) := by rfl

/-- C7 (amended): a mutating command no-ops (returns `undefined` and leaves
all state unchanged) when the target group is locked, and when the target
part is locked and the patch does not itself contain the `locked` key; a
patch containing `locked` is let through even on a locked part (this is how
part locks are toggled); `toggleGroupLock` mutates and returns an undoable
result even when the group is locked; an `undefined` result is excluded
from the undo ledger. -/
theorem C7_lock_noop (g : GroupModel) (partId : Str) (u : PartUpdate)
    (part : PartModel) (hfound : findPart g partId = some part) :
    (g.locked = true → updatePart g partId u = Except.ok none) ∧
    (part.locked = true → u.locked = none → updatePart g partId u = Except.ok none) ∧
    (∀ maxLen st, handleCommandResult maxLen st none = st) ∧
    (∀ value, toggleGroupLock g value = Except.ok (some { g with locked := value })) := by
  refine ⟨?_, ?_, fun maxLen st => rfl, fun value => rfl⟩
  · intro hlock
    simp [updatePart, hfound, hlock]
  · intro hlock hnokey
    by_cases hg : g.locked
    · simp [updatePart, hfound, hg]
    · simp [updatePart, hfound, hg, hlock, hnokey]

theorem C7_lock_noop_witness :
    (updatePart ⟨("g1").toList, ("grp").toList, false, false, none, [],
        [⟨("p1").toList, ("x").toList, true⟩]⟩
      (("p1").toList) ⟨some (("y").toList), none⟩ = Except.ok none) :=
  (C7_lock_noop ⟨("g1").toList, ("grp").toList, false, false, none, [],
      [⟨("p1").toList, ("x").toList, true⟩]⟩
    (("p1").toList) ⟨some (("y").toList), none⟩ ⟨("p1").toList, ("x").toList, true⟩
    (by decide)).2.1 rfl rfl

/-- C10 as frozen is refuted: with scheduling turned from inactive to active,
a `playingParts` entry whose `stopTime` is set to `0` is retained, because
the source deletes on JS truthiness (`if (playingPart.stopTime)`), not on
presence: the claim predicts every entry with a set `stopTime` is deleted. -/
theorem C10_counterexample :
    (updateGroup
      ⟨("g1").toList, ("grp").toList, false, false, none,
        [((("p1").toList : Str), ⟨5, none, some 0, false⟩)], []⟩
      ⟨none, some true⟩).map GroupModel.playingParts
    = some [((("p1").toList : Str), ⟨5, none, some 0, false⟩)] := by decide

/-- C10 (amended): when `updateGroup` on an unlocked group changes
`schedule?.activate` from falsy to truthy, exactly the `playingParts`
entries with a truthy (nonzero) `stopTime` are deleted, and every entry
whose `stopTime` is undefined or `0` is retained unchanged. -/
theorem C10_schedule_activate_clears_stops (g : GroupModel) (u : GroupUpdate)
    (hlock : g.locked = false)
    (hpre : scheduleActivateTruthy g = false)
    (hpost : scheduleActivateTruthy (deepExtendGroup g u) = true) :
    ∃ g', updateGroup g u = some g' ∧
      g'.playingParts = g.playingParts.filter (fun e => !truthyOptInt e.2.stopTime) ∧
      (∀ e ∈ g.playingParts, truthyOptInt e.2.stopTime = false → e ∈ g'.playingParts) := by
  refine ⟨{ deepExtendGroup g u with
      playingParts :=
        (deepExtendGroup g u).playingParts.filter (fun e => !truthyOptInt e.2.stopTime) },
    ?_, rfl, ?_⟩
  · unfold updateGroup
    rw [if_neg (by simp [hlock]), if_pos (by rw [hpre, hpost]; rfl)]
  · intro e he hne
    simp only [List.mem_filter]
    refine ⟨?_, by simp [hne]⟩
    show e ∈ (deepExtendGroup g u).playingParts
    exact he

theorem C10_schedule_activate_clears_stops_witness :
    ∃ g', updateGroup
        ⟨("g1").toList, ("grp").toList, false, false, none,
          [((("p1").toList : Str), ⟨5, none, some 100, false⟩),
           ((("p2").toList : Str), ⟨7, none, none, false⟩)], []⟩
        ⟨none, some true⟩ = some g' ∧
      g'.playingParts
        = ([((("p1").toList : Str), ⟨5, none, some 100, false⟩),
            ((("p2").toList : Str), ⟨7, none, none, false⟩)] :
            List (Str × PlayingPart)).filter (fun e => !truthyOptInt e.2.stopTime) ∧
      (∀ e ∈ ([((("p1").toList : Str), ⟨5, none, some 100, false⟩),
            ((("p2").toList : Str), ⟨7, none, none, false⟩)] :
            List (Str × PlayingPart)), truthyOptInt e.2.stopTime = false →
          e ∈ g'.playingParts) :=
  C10_schedule_activate_clears_stops
    ⟨("g1").toList, ("grp").toList, false, false, none,
      [((("p1").toList : Str), ⟨5, none, some 100, false⟩),
       ((("p2").toList : Str), ⟨7, none, none, false⟩)], []⟩
    ⟨none, some true⟩ rfl rfl rfl

/-! ## insertGroups / insertParts (IPCServer.ts 947-1037, 725-829)

The batches are modelled without attached resources
(`addResourcesToTimeline` runs only after all inserts have succeeded and is
outside the id-collision claim). -/

inductive MoveTarget where
  | first
  | after (id : Str)
deriving DecidableEq, Repr

/-- Modelled from the spec: `getPositionFromTarget` (lib/util.ts) is not
under src/; it computes the insertion index for a move target inside an
ordered container.  The id-collision claim does not depend on the exact
position. -/
def getPositionFromTarget {α : Type} (idOf : α → Str) (target : MoveTarget)
    (l : List α) : Nat :=
  match target with
  | .first => 0
  | .after id =>
    match l.findIdx? (fun x => idOf x = id) with
    | some i => i + 1
    | none => l.length

/-- `array.splice(pos, 0, a)`. -/
def insertAt {α : Type} (l : List α) (n : Nat) (a : α) : List α :=
  l.take n ++ a :: l.drop n

/-- The duplicate-part check of the insert loops: is the id used by any part
of any group of the rundown? -/
def partIdInRundown (rd : RundownModel) (partId : Str) : Bool :=
  rd.groups.any (fun g => g.parts.any (fun p => p.id = partId))

def groupIdInRundown (rd : RundownModel) (groupId : Str) : Bool :=
  rd.groups.any (fun g => g.id = groupId)

def setGroupParts (rd : RundownModel) (groupId : Str)
    (f : List PartModel → List PartModel) : RundownModel :=
  { rd with groups := rd.groups.map (fun g =>
      if g.id = groupId then { g with parts := f g.parts } else g) }

/-- The per-group loop of `IPCServer.insertGroups` (IPCServer.ts 971-996):
group-id check, part-id checks, splice, and the move target advances to
`after` the inserted group. -/
def insertGroupsLoop (rd : RundownModel) (batch : List GroupModel)
    (target : MoveTarget) : Except Str RundownModel :=
  match batch with
  | [] => Except.ok rd
  | grp :: rest =>
    if groupIdInRundown rd grp.id then
      Except.error (("Group id is already in use").toList)
    else if grp.parts.any (fun p => partIdInRundown rd p.id) then
      Except.error (("part id is already in use").toList)
    else
      insertGroupsLoop
        { rd with groups :=
            insertAt rd.groups (getPositionFromTarget GroupModel.id target rd.groups) grp }
        rest (MoveTarget.after grp.id)

/-- The per-part loop of `IPCServer.insertParts` (IPCServer.ts 765-784) for a
non-transparent target group: part-id check, splice into the group's parts,
move target advances. -/
def insertPartsLoop (rd : RundownModel) (groupId : Str) (batch : List PartModel)
    (target : MoveTarget) : Except Str RundownModel :=
  match batch with
  | [] => Except.ok rd
  | part :: rest =>
    if partIdInRundown rd part.id then
      Except.error (("part id is already in use").toList)
    else
      match findGroup rd groupId with
      | none => Except.error (("Group not found").toList)
      | some _ =>
        insertPartsLoop
          (setGroupParts rd groupId (fun parts =>
            insertAt parts (getPositionFromTarget PartModel.id target parts) part))
          groupId rest (MoveTarget.after part.id)

/-- Modelled from the spec: `getDefaultGroup` (lib/defaults.ts) and
`shortID` (lib/util.ts) are not under src/.  The transparent wrapper groups
built by `_insertPartsAsTransparentGroup` (IPCServer.ts 852-871) hold one
part, carry its name, and get a fresh random id, supplied here by the
`shortID` function argument. -/
def mkTransparentGroup (freshId : Str) (p : PartModel) : GroupModel :=
  ⟨freshId, p.name, true, false, none, [], [p]⟩

def mkTransparentGroups (shortID : Nat → Str) (i : Nat) :
    List PartModel → List GroupModel
  | [] => []
  | p :: rest => mkTransparentGroup (shortID i) p :: mkTransparentGroups shortID (i + 1) rest

/-- `IPCServer.insertParts` (IPCServer.ts 725-829): with a group id the parts
go into that group unless it is transparent, in which case (as with a null
group id) each part is wrapped in a fresh transparent group and routed
through `insertGroups`. -/
def insertParts (rd : RundownModel) (groupId : Option Str) (batch : List PartModel)
    (target : MoveTarget) (shortID : Nat → Str) : Except Str RundownModel :=
  match groupId with
  | some gid =>
    match findGroup rd gid with
    | none => Except.error (("Group not found").toList)
    | some group =>
      if group.transparent then
        insertGroupsLoop rd (mkTransparentGroups shortID 0 batch) (MoveTarget.after group.id)
      else insertPartsLoop rd gid batch target
  | none => insertGroupsLoop rd (mkTransparentGroups shortID 0 batch) target

/-- Modelled from the spec (section 6): the storage collaborator is a
synchronous key-value store over rundown values; a command that throws does
so before any `updateRundown` commit, leaving the stored rundown unchanged. -/
def runRundownCommand (stored : RundownModel)
    (cmd : RundownModel → Except Str RundownModel) : RundownModel :=
  match cmd stored with
  | Except.ok rd => rd
  | Except.error _ => stored

theorem mem_insertAt {α : Type} (l : List α) (n : Nat) (a x : α) (h : x ∈ l) :
    x ∈ insertAt l n a := by
  unfold insertAt
  rw [← List.take_append_drop n l] at h
  rcases List.mem_append.mp h with h | h
  · exact List.mem_append.mpr (Or.inl h)
  · exact List.mem_append.mpr (Or.inr (List.mem_cons_of_mem _ h))

theorem partIdInRundown_insertAt_group (rd : RundownModel) (grp : GroupModel)
    (n : Nat) (pid : Str) (h : partIdInRundown rd pid = true) :
    partIdInRundown { rd with groups := insertAt rd.groups n grp } pid = true := by
  simp only [partIdInRundown, List.any_eq_true] at h ⊢
  obtain ⟨g, hg, hp⟩ := h
  exact ⟨g, mem_insertAt _ _ _ _ hg, hp⟩

theorem groupIdInRundown_insertAt_group (rd : RundownModel) (grp : GroupModel)
    (n : Nat) (gid : Str) (h : groupIdInRundown rd gid = true) :
    groupIdInRundown { rd with groups := insertAt rd.groups n grp } gid = true := by
  simp only [groupIdInRundown, List.any_eq_true] at h ⊢
  obtain ⟨g, hg, hp⟩ := h
  exact ⟨g, mem_insertAt _ _ _ _ hg, hp⟩

theorem partIdInRundown_setGroupParts (rd : RundownModel) (gid : Str)
    (f : List PartModel → List PartModel)
    (hf : ∀ parts, ∀ p ∈ parts, p ∈ f parts) (pid : Str)
    (h : partIdInRundown rd pid = true) :
    partIdInRundown (setGroupParts rd gid f) pid = true := by
  simp only [partIdInRundown, setGroupParts, List.any_eq_true, decide_eq_true_eq] at h ⊢
  obtain ⟨g, hg, p, hp, hid⟩ := h
  refine ⟨if g.id = gid then { g with parts := f g.parts } else g,
    List.mem_map_of_mem _ hg, ?_⟩
  by_cases hgid : g.id = gid
  · rw [if_pos hgid]
    exact ⟨p, hf _ _ hp, hid⟩
  · rw [if_neg hgid]
    exact ⟨p, hp, hid⟩

theorem insertGroupsLoop_error_of_dup (batch : List GroupModel) :
    ∀ (rd : RundownModel) (target : MoveTarget),
    (∃ grp ∈ batch, groupIdInRundown rd grp.id = true ∨
      ∃ p ∈ grp.parts, partIdInRundown rd p.id = true) →
    ∃ e, insertGroupsLoop rd batch target = Except.error e := by
  induction batch with
  | nil =>
    rintro rd target ⟨grp, hmem, _⟩
    cases hmem
  | cons grp rest ih =>
    rintro rd target ⟨g0, hmem, hdup⟩
    by_cases h1 : groupIdInRundown rd grp.id
    · exact ⟨_, by unfold insertGroupsLoop; rw [if_pos h1]⟩
    · by_cases h2 : grp.parts.any (fun p => partIdInRundown rd p.id)
      · exact ⟨_, by unfold insertGroupsLoop; rw [if_neg h1, if_pos h2]⟩
      · have hstep : insertGroupsLoop rd (grp :: rest) target
            = insertGroupsLoop
              { rd with groups :=
                  insertAt rd.groups (getPositionFromTarget GroupModel.id target rd.groups) grp }
              rest (MoveTarget.after grp.id) := by
          conv_lhs => rw [insertGroupsLoop]
          rw [if_neg h1, if_neg h2]
        rw [hstep]
        rcases List.mem_cons.mp hmem with rfl | hmemrest
        · exfalso
          rcases hdup with hd | ⟨p, hp, hd⟩
          · exact h1 hd
          · exact h2 (List.any_eq_true.mpr ⟨p, hp, by simpa using hd⟩)
        · apply ih _ _
          refine ⟨g0, hmemrest, ?_⟩
          rcases hdup with hd | ⟨p, hp, hd⟩
          · exact Or.inl (groupIdInRundown_insertAt_group _ _ _ _ hd)
          · exact Or.inr ⟨p, hp, partIdInRundown_insertAt_group _ _ _ _ hd⟩

theorem insertPartsLoop_error_of_dup (batch : List PartModel) :
    ∀ (rd : RundownModel) (gid : Str) (target : MoveTarget),
    (∃ p ∈ batch, partIdInRundown rd p.id = true) →
    ∃ e, insertPartsLoop rd gid batch target = Except.error e := by
  induction batch with
  | nil =>
    rintro rd gid target ⟨p, hmem, _⟩
    cases hmem
  | cons part rest ih =>
    rintro rd gid target ⟨p0, hmem, hdup⟩
    by_cases h1 : partIdInRundown rd part.id
    · exact ⟨_, by unfold insertPartsLoop; rw [if_pos h1]⟩
    · cases hfind : findGroup rd gid with
      | none =>
        exact ⟨_, by unfold insertPartsLoop; rw [if_neg h1]; rw [hfind]⟩
      | some group =>
        have hstep : insertPartsLoop rd gid (part :: rest) target
            = insertPartsLoop
              (setGroupParts rd gid (fun parts =>
                insertAt parts (getPositionFromTarget PartModel.id target parts) part))
              gid rest (MoveTarget.after part.id) := by
          conv_lhs => rw [insertPartsLoop]
          rw [if_neg h1, hfind]
        rw [hstep]
        rcases List.mem_cons.mp hmem with rfl | hmemrest
        · exact absurd hdup h1
        · apply ih _ _ _
          refine ⟨p0, hmemrest, ?_⟩
          exact partIdInRundown_setGroupParts _ _ _
            (fun parts p hp => mem_insertAt _ _ _ _ hp) _ hdup

theorem mkTransparentGroups_mem (shortID : Nat → Str) (batch : List PartModel)
    (p : PartModel) (hp : p ∈ batch) :
    ∀ i, ∃ grp ∈ mkTransparentGroups shortID i batch, p ∈ grp.parts := by
  induction batch with
  | nil => cases hp
  | cons hd rest ih =>
    intro i
    rcases List.mem_cons.mp hp with rfl | hmem
    · exact ⟨mkTransparentGroup (shortID i) p,
        List.mem_cons_self _ _, List.mem_singleton.mpr rfl⟩
    · obtain ⟨grp, hgrp, hpg⟩ := ih hmem (i + 1)
      exact ⟨grp, List.mem_cons_of_mem _ hgrp, hpg⟩

/-- C6: a batch given to `insertGroups` containing a group id or part id that
already exists anywhere in the rundown, or a batch given to `insertParts`
containing a part id that already exists anywhere in the rundown, makes the
command throw, and the stored rundown (its groups and each group's parts)
is exactly what it was before the call: all-or-nothing per insert batch. -/
theorem C6_insert_id_collision_atomic (rd : RundownModel) :
    (∀ (batch : List GroupModel) (target : MoveTarget),
      (∃ grp ∈ batch, groupIdInRundown rd grp.id = true ∨
        ∃ p ∈ grp.parts, partIdInRundown rd p.id = true) →
      (∃ e, insertGroupsLoop rd batch target = Except.error e) ∧
      runRundownCommand rd (fun r => insertGroupsLoop r batch target) = rd) ∧
    (∀ (groupId : Option Str) (batch : List PartModel) (target : MoveTarget)
        (shortID : Nat → Str),
      (∃ p ∈ batch, partIdInRundown rd p.id = true) →
      (∃ e, insertParts rd groupId batch target shortID = Except.error e) ∧
      runRundownCommand rd (fun r => insertParts r groupId batch target shortID) = rd) := by
  have htrans : ∀ (batch : List PartModel) (shortID : Nat → Str) (target : MoveTarget),
      (∃ p ∈ batch, partIdInRundown rd p.id = true) →
      ∃ e, insertGroupsLoop rd (mkTransparentGroups shortID 0 batch) target
        = Except.error e := by
    intro batch shortID target ⟨p, hp, hdup⟩
    apply insertGroupsLoop_error_of_dup
    obtain ⟨grp, hgrp, hpg⟩ := mkTransparentGroups_mem shortID batch p hp 0
    exact ⟨grp, hgrp, Or.inr ⟨p, hpg, hdup⟩⟩
  constructor
  · intro batch target hdup
    obtain ⟨e, he⟩ := insertGroupsLoop_error_of_dup batch rd target hdup
    exact ⟨⟨e, he⟩, by unfold runRundownCommand; simp only [he]⟩
  · intro groupId batch target shortID hdup
    have herr : ∃ e, insertParts rd groupId batch target shortID = Except.error e := by
      cases groupId with
      | none =>
        obtain ⟨e, he⟩ := htrans batch shortID target hdup
        exact ⟨e, by simp only [insertParts]; rw [he]⟩
      | some gid =>
        cases hfind : findGroup rd gid with
        | none => exact ⟨_, by simp only [insertParts, hfind]; rfl⟩
        | some group =>
          by_cases htr : group.transparent
          · obtain ⟨e, he⟩ := htrans batch shortID (MoveTarget.after group.id) hdup
            exact ⟨e, by simp only [insertParts, hfind]; rw [if_pos htr, he]⟩
          · obtain ⟨e, he⟩ := insertPartsLoop_error_of_dup batch rd gid target hdup
            exact ⟨e, by simp only [insertParts, hfind]; rw [if_neg htr, he]⟩
    obtain ⟨e, he⟩ := herr
    exact ⟨⟨e, he⟩, by unfold runRundownCommand; simp only [he]⟩

theorem C6_insert_id_collision_atomic_witness :
    (∃ e, insertParts
        ⟨("rd1").toList,
          [⟨("g1").toList, ("grp").toList, false, false, none, [],
            [⟨("p1").toList, ("x").toList, false⟩]⟩]⟩
        (some (("g1").toList))
        [⟨("p9").toList, ("fresh").toList, false⟩, ⟨("p1").toList, ("dup").toList, false⟩]
        MoveTarget.first (fun _ => ("id").toList) = Except.error e) ∧
    runRundownCommand
      ⟨("rd1").toList,
        [⟨("g1").toList, ("grp").toList, false, false, none, [],
          [⟨("p1").toList, ("x").toList, false⟩]⟩]⟩
      (fun r => insertParts r (some (("g1").toList))
        [⟨("p9").toList, ("fresh").toList, false⟩, ⟨("p1").toList, ("dup").toList, false⟩]
        MoveTarget.first (fun _ => ("id").toList))
    = ⟨("rd1").toList,
        [⟨("g1").toList, ("grp").toList, false, false, none, [],
          [⟨("p1").toList, ("x").toList, false⟩]⟩]⟩ :=
  (C6_insert_id_collision_atomic
    ⟨("rd1").toList,
      [⟨("g1").toList, ("grp").toList, false, false, none, [],
        [⟨("p1").toList, ("x").toList, false⟩]⟩]⟩).2
    (some (("g1").toList))
    [⟨("p9").toList, ("fresh").toList, false⟩, ⟨("p1").toList, ("dup").toList, false⟩]
    MoveTarget.first (fun _ => ("id").toList)
    ⟨⟨("p1").toList, ("dup").toList, false⟩, by decide, by decide⟩

/-! ## SessionHandler (src/unnamed/part_000)

State mutators run synchronously; `triggerUpdate` only schedules a debounce
timer (`setTimeout(..., 5)`) when none is pending, and all events are
emitted by the timer callback `emitChanges`.  The single-threaded event
loop is modelled by an explicit `fireEmitTimeout` step; the fact that the
mutators return only a new state (no events) mirrors the source, where no
`emit` call occurs outside `emitChanges`. -/

/-- An external resource payload (`ResourceAny` is a large external union;
the session layer only stores and compares it). -/
structure Resource where
  deviceId : Str
  payload : Str
deriving DecidableEq, Repr

structure BridgeStatus where
  payload : Str
deriving DecidableEq, Repr

structure PeripheralStatus where
  lastConnected : Int
  connected : Bool
deriving DecidableEq, Repr

structure Peripheral where
  id : Str
  bridgeId : Str
  name : Str
  status : PeripheralStatus
deriving DecidableEq, Repr

structure ActiveTrigger where
  fullIdentifier : Str
  bridgeId : Str
  deviceId : Str
  deviceName : Str
  identifier : Str
deriving DecidableEq, Repr

/-- The events emitted by `emitChanges`. -/
inductive SessionEvent where
  | resource (id : Str) (value : Option Resource)
  | bridgeStatus (id : Str) (value : Option BridgeStatus)
  | peripheral (id : Str) (value : Option Peripheral)
  | allTrigger (id : Str) (value : Option ActiveTrigger)
  | activeTriggers (values : List ActiveTrigger)
deriving DecidableEq, Repr

structure SessionState where
  resources : List (Str × Resource)
  resourcesHasChanged : List Str
  bridgeStatuses : List (Str × BridgeStatus)
  bridgeStatusesHasChanged : List Str
  peripherals : List (Str × Peripheral)
  peripheralsHasChanged : List Str
  allTriggers : List (Str × ActiveTrigger)
  allTriggersHasChanged : List Str
  activeTriggers : List (Str × ActiveTrigger)
  activeTriggersHasChanged : Bool
  emitTimeout : Bool
  emitEverything : Bool
deriving DecidableEq, Repr

/-- `this.xHasChanged[id] = true`: a JS object used as an ordered set. -/
def markChanged (l : List Str) (id : Str) : List Str :=
  if id ∈ l then l else l ++ [id]

/-- `delete obj[k]`. -/
def deleteA {α : Type} (m : List (Str × α)) (k : Str) : List (Str × α) :=
  m.filter (fun e => !(decide (e.1 = k)))

/-- `SessionHandler.triggerUpdate` (part_000 154-161): schedule the debounce
timer only when none is pending; no event is emitted here. -/
def triggerUpdate (st : SessionState) : SessionState :=
  if st.emitTimeout then st else { st with emitTimeout := true }

def getResource (st : SessionState) (id : Str) : Option Resource :=
  lookupA st.resources id

def getBridgeStatus (st : SessionState) (id : Str) : Option BridgeStatus :=
  lookupA st.bridgeStatuses id

def getPeripheralStatus (st : SessionState) (bridgeId deviceId : Str) : Option Peripheral :=
  lookupA st.peripherals (bridgeId ++ '-' :: deviceId)

/-- `SessionHandler.updateResource` (part_000 46-56). -/
def updateResource (st : SessionState) (id : Str) (resource : Option Resource) :
    SessionState :=
  triggerUpdate <|
    match resource with
    | some r =>
      { st with
        resources := setA st.resources id r
        resourcesHasChanged := markChanged st.resourcesHasChanged id }
    | none =>
      { st with
        resources := deleteA st.resources id
        resourcesHasChanged := markChanged st.resourcesHasChanged id }

/-- `SessionHandler.updateBridgeStatus` (part_000 64-76): a delete only takes
effect (and is only marked) when the entry exists. -/
def updateBridgeStatus (st : SessionState) (id : Str) (bridgeStatus : Option BridgeStatus) :
    SessionState :=
  triggerUpdate <|
    match bridgeStatus with
    | some b =>
      { st with
        bridgeStatuses := setA st.bridgeStatuses id b
        bridgeStatusesHasChanged := markChanged st.bridgeStatusesHasChanged id }
    | none =>
      if (lookupA st.bridgeStatuses id).isSome then
        { st with
          bridgeStatuses := deleteA st.bridgeStatuses id
          bridgeStatusesHasChanged := markChanged st.bridgeStatusesHasChanged id }
      else st

/-- The `newDevice` record built by `updatePeripheralStatus` (part_000 87-95):
`lastConnected: connected ? Date.now() : existing?.status.lastConnected ?? 0`. -/
def newPeripheralDevice (st : SessionState) (bridgeId deviceId deviceName : Str)
    (connected : Bool) (now : Int) : Peripheral :=
  ⟨deviceId, bridgeId, deviceName,
    ⟨if connected then now
      else ((lookupA st.peripherals (bridgeId ++ '-' :: deviceId)).map
        (fun e => e.status.lastConnected)).getD 0,
      connected⟩⟩

/-- `SessionHandler.updatePeripheralStatus` (part_000 82-102): the store and
the changed mark are only written when the new record differs
(`!_.isEqual(...)`). -/
def updatePeripheralStatus (st : SessionState) (bridgeId deviceId deviceName : Str)
    (connected : Bool) (now : Int) : SessionState :=
  triggerUpdate <|
    if lookupA st.peripherals (bridgeId ++ '-' :: deviceId)
        = some (newPeripheralDevice st bridgeId deviceId deviceName connected now) then st
    else
      { st with
        peripherals := setA st.peripherals (bridgeId ++ '-' :: deviceId)
          (newPeripheralDevice st bridgeId deviceId deviceName connected now)
        peripheralsHasChanged :=
          markChanged st.peripheralsHasChanged (bridgeId ++ '-' :: deviceId) }

/-- The `fullIdentifier` key of a peripheral trigger. -/
def triggerFullId (bridgeId deviceId identifier : Str) : Str :=
  bridgeId ++ '-' :: (deviceId ++ '-' :: identifier)

/-- The `ActiveTrigger` record built by `updatePeripheralTriggerStatus`
(part_000 126-132). -/
def mkActiveTrigger (st : SessionState) (bridgeId deviceId identifier : Str) : ActiveTrigger :=
  ⟨triggerFullId bridgeId deviceId identifier, bridgeId, deviceId,
    ((lookupA st.peripherals (bridgeId ++ '-' :: deviceId)).map Peripheral.name).getD [],
    identifier⟩

/-- The `allTriggers` registration step of `updatePeripheralTriggerStatus`
(part_000 134-137). -/
def registerAllTrigger (st : SessionState) (bridgeId deviceId identifier : Str) : SessionState :=
  if (lookupA st.allTriggers (triggerFullId bridgeId deviceId identifier)).isSome then st
  else
    { st with
      allTriggers := setA st.allTriggers (triggerFullId bridgeId deviceId identifier)
        (mkActiveTrigger st bridgeId deviceId identifier)
      allTriggersHasChanged :=
        markChanged st.allTriggersHasChanged (triggerFullId bridgeId deviceId identifier) }

/-- `SessionHandler.updatePeripheralTriggerStatus` (part_000 119-152). -/
def updatePeripheralTriggerStatus (st : SessionState) (bridgeId deviceId identifier : Str)
    (down : Bool) : SessionState :=
  triggerUpdate <|
    let st1 := registerAllTrigger st bridgeId deviceId identifier
    if down then
      if (lookupA st1.activeTriggers (triggerFullId bridgeId deviceId identifier)).isSome then st1
      else
        { st1 with
          activeTriggers := setA st1.activeTriggers (triggerFullId bridgeId deviceId identifier)
            (mkActiveTrigger st bridgeId deviceId identifier)
          activeTriggersHasChanged := true }
    else
      if (lookupA st1.activeTriggers (triggerFullId bridgeId deviceId identifier)).isSome then
        { st1 with
          activeTriggers := deleteA st1.activeTriggers (triggerFullId bridgeId deviceId identifier)
          activeTriggersHasChanged := true }
      else st1

/-- The `emitEverything` preamble of `emitChanges` (part_000 163-176): mark
every currently stored key of each map as changed. -/
def emitEverythingPass (st : SessionState) : SessionState :=
  if st.emitEverything then
    { st with
      resourcesHasChanged := (keysA st.resources).foldl markChanged st.resourcesHasChanged
      bridgeStatusesHasChanged :=
        (keysA st.bridgeStatuses).foldl markChanged st.bridgeStatusesHasChanged
      peripheralsHasChanged :=
        (keysA st.peripherals).foldl markChanged st.peripheralsHasChanged
      activeTriggersHasChanged := true
      emitEverything := false }
  else st

/-- The events of one emission pass (part_000 178-198): the current value of
each changed key, in mark insertion order, one event per changed key. -/
def sessionEventsOf (st : SessionState) : List SessionEvent :=
  st.resourcesHasChanged.map (fun id => SessionEvent.resource id (lookupA st.resources id))
  ++ (st.bridgeStatusesHasChanged.map
      (fun id => SessionEvent.bridgeStatus id (lookupA st.bridgeStatuses id))
    ++ (st.peripheralsHasChanged.map
        (fun id => SessionEvent.peripheral id (lookupA st.peripherals id))
      ++ (st.allTriggersHasChanged.map
          (fun id => SessionEvent.allTrigger id (lookupA st.allTriggers id))
        ++ (if st.activeTriggersHasChanged then
            [SessionEvent.activeTriggers (st.activeTriggers.map Prod.snd)] else []))))

def clearMarks (st : SessionState) : SessionState :=
  { st with
    resourcesHasChanged := []
    bridgeStatusesHasChanged := []
    peripheralsHasChanged := []
    allTriggersHasChanged := []
    activeTriggersHasChanged := false }

/-- `SessionHandler.emitChanges` (part_000 162-199): one batched pass over
the accumulated change marks, emitting the current value per changed key,
then clearing all marks. -/
def emitChanges (st : SessionState) : SessionState × List SessionEvent :=
  (clearMarks (emitEverythingPass st), sessionEventsOf (emitEverythingPass st))

/-- The debounce timer firing: clear the handle, then run `emitChanges`.
Nothing is emitted when no timer is pending. -/
def fireEmitTimeout (st : SessionState) : SessionState × List SessionEvent :=
  if st.emitTimeout then emitChanges { st with emitTimeout := false } else (st, [])

/-- A call to one of the four modelled mutators. -/
inductive SessionOp where
  | updRes (id : Str) (r : Option Resource)
  | updBridge (id : Str) (b : Option BridgeStatus)
  | updPeripheral (bridgeId deviceId deviceName : Str) (connected : Bool) (now : Int)
  | updTrigger (bridgeId deviceId identifier : Str) (down : Bool)

def applySessionOp (st : SessionState) : SessionOp → SessionState
  | .updRes id r => updateResource st id r
  | .updBridge id b => updateBridgeStatus st id b
  | .updPeripheral bridgeId deviceId deviceName connected now =>
    updatePeripheralStatus st bridgeId deviceId deviceName connected now
  | .updTrigger bridgeId deviceId identifier down =>
    updatePeripheralTriggerStatus st bridgeId deviceId identifier down

def applySessionOps (st : SessionState) (ops : List SessionOp) : SessionState :=
  ops.foldl applySessionOp st

/-- The change-mark sets of a `SessionState` are JS objects, so their key
lists contain no duplicates. -/
def sessionWF (st : SessionState) : Prop :=
  st.resourcesHasChanged.Nodup ∧ st.bridgeStatusesHasChanged.Nodup ∧
  st.peripheralsHasChanged.Nodup ∧ st.allTriggersHasChanged.Nodup

theorem nodup_markChanged (l : List Str) (id : Str) (h : l.Nodup) :
    (markChanged l id).Nodup := by
  unfold markChanged
  by_cases hmem : id ∈ l
  · rwa [if_pos hmem]
  · rw [if_neg hmem]
    simp [List.nodup_append, h, hmem]

theorem nodup_foldl_markChanged (keys : List Str) :
    ∀ l, l.Nodup → (keys.foldl markChanged l).Nodup := by
  induction keys with
  | nil => intro l h; exact h
  | cons k rest ih => intro l h; exact ih _ (nodup_markChanged _ _ h)

theorem sessionWF_triggerUpdate (st : SessionState) :
    sessionWF (triggerUpdate st) ↔ sessionWF st := by
  unfold triggerUpdate
  by_cases h : st.emitTimeout <;> simp [h, sessionWF]

theorem emitTimeout_triggerUpdate (st : SessionState) :
    (triggerUpdate st).emitTimeout = true := by
  unfold triggerUpdate
  by_cases h : st.emitTimeout <;> simp [h]

theorem sessionWF_applySessionOp (st : SessionState) (op : SessionOp)
    (h : sessionWF st) : sessionWF (applySessionOp st op) := by
  obtain ⟨h1, h2, h3, h4⟩ := h
  cases op with
  | updRes id r =>
    show sessionWF (updateResource st id r)
    unfold updateResource
    rw [sessionWF_triggerUpdate]
    cases r with
    | some v => exact ⟨nodup_markChanged _ _ h1, h2, h3, h4⟩
    | none => exact ⟨nodup_markChanged _ _ h1, h2, h3, h4⟩
  | updBridge id b =>
    show sessionWF (updateBridgeStatus st id b)
    unfold updateBridgeStatus
    rw [sessionWF_triggerUpdate]
    cases b with
    | some v => exact ⟨h1, nodup_markChanged _ _ h2, h3, h4⟩
    | none =>
      by_cases hp : (lookupA st.bridgeStatuses id).isSome
      · rw [if_pos hp]
        exact ⟨h1, nodup_markChanged _ _ h2, h3, h4⟩
      · rw [if_neg hp]
        exact ⟨h1, h2, h3, h4⟩
  | updPeripheral bridgeId deviceId deviceName connected now =>
    show sessionWF (updatePeripheralStatus st bridgeId deviceId deviceName connected now)
    unfold updatePeripheralStatus
    rw [sessionWF_triggerUpdate]
    by_cases hp : lookupA st.peripherals (bridgeId ++ '-' :: deviceId)
        = some (newPeripheralDevice st bridgeId deviceId deviceName connected now)
    · rw [if_pos hp]
      exact ⟨h1, h2, h3, h4⟩
    · rw [if_neg hp]
      exact ⟨h1, h2, nodup_markChanged _ _ h3, h4⟩
  | updTrigger bridgeId deviceId identifier down =>
    show sessionWF (updatePeripheralTriggerStatus st bridgeId deviceId identifier down)
    unfold updatePeripheralTriggerStatus
    rw [sessionWF_triggerUpdate]
    have hst1 : sessionWF (registerAllTrigger st bridgeId deviceId identifier) ∧
        (registerAllTrigger st bridgeId deviceId identifier).resourcesHasChanged.Nodup := by
      unfold registerAllTrigger
      by_cases ha : (lookupA st.allTriggers (triggerFullId bridgeId deviceId identifier)).isSome
      · rw [if_pos ha]
        exact ⟨⟨h1, h2, h3, h4⟩, h1⟩
      · rw [if_neg ha]
        exact ⟨⟨h1, h2, h3, nodup_markChanged _ _ h4⟩, h1⟩
    obtain ⟨⟨w1, w2, w3, w4⟩, _⟩ := hst1
    cases down with
    | true =>
      by_cases hac : (lookupA (registerAllTrigger st bridgeId deviceId identifier).activeTriggers
          (triggerFullId bridgeId deviceId identifier)).isSome
      · simp only [if_pos hac]
        exact ⟨w1, w2, w3, w4⟩
      · simp only [if_neg hac]
        exact ⟨w1, w2, w3, w4⟩
    | false =>
      by_cases hac : (lookupA (registerAllTrigger st bridgeId deviceId identifier).activeTriggers
          (triggerFullId bridgeId deviceId identifier)).isSome
      · simp only [if_pos hac]
        exact ⟨w1, w2, w3, w4⟩
      · simp only [if_neg hac]
        exact ⟨w1, w2, w3, w4⟩

theorem sessionWF_applySessionOps (st : SessionState) (ops : List SessionOp)
    (h : sessionWF st) : sessionWF (applySessionOps st ops) := by
  induction ops generalizing st with
  | nil => exact h
  | cons op rest ih => exact ih _ (sessionWF_applySessionOp st op h)

/-- Does the event report the resource with the given id? -/
def isResEventFor (id : Str) : SessionEvent → Bool
  | .resource i _ => decide (i = id)
  | _ => false

theorem resEvents_count (l : List Str) (f : Str → Option Resource) (id : Str)
    (h : l.Nodup) :
    ((l.map (fun i => SessionEvent.resource i (f i))).filter (isResEventFor id)).length ≤ 1 := by
  induction l with
  | nil => simp
  | cons hd tl ih =>
    simp only [List.nodup_cons] at h
    simp only [List.map_cons, List.filter_cons]
    by_cases hid : hd = id
    · rw [if_pos (by simp [isResEventFor, hid])]
      have hnil : ((tl.map (fun i => SessionEvent.resource i (f i))).filter
          (isResEventFor id)) = [] := by
        rw [List.filter_eq_nil_iff]
        intro ev hev
        simp only [List.mem_map] at hev
        obtain ⟨j, hj, rfl⟩ := hev
        have hne : j ≠ id := fun hji => h.1 ((hji.trans hid.symm) ▸ hj)
        simp [isResEventFor, hne]
      simp [hnil]
    · rw [if_neg (by simp [isResEventFor, hid])]
      exact ih h.2

theorem resEvents_value (l : List Str) (f : Str → Option Resource) (id : Str)
    (v : Option Resource)
    (h : SessionEvent.resource id v ∈ l.map (fun i => SessionEvent.resource i (f i))) :
    v = f id := by
  simp only [List.mem_map] at h
  obtain ⟨j, hj, heq⟩ := h
  injection heq with hid hv
  rw [← hv, hid]

/-- Property of one emission pass: over a nodup resource mark list, at most
one `resource` event per id is emitted, and such an event carries `f id`. -/
theorem sessionEvents_resource_spec (rl : List Str) (f : Str → Option Resource)
    (rest : List SessionEvent) (id : Str)
    (hnd : rl.Nodup)
    (hrest : ∀ ev ∈ rest, isResEventFor id ev = false) :
    ((((rl.map (fun i => SessionEvent.resource i (f i))) ++ rest).filter
        (isResEventFor id)).length ≤ 1) ∧
    (∀ v, SessionEvent.resource id v ∈ (rl.map (fun i => SessionEvent.resource i (f i))) ++ rest
      → v = f id) := by
  constructor
  · rw [List.filter_append]
    have h2 : rest.filter (isResEventFor id) = [] :=
      List.filter_eq_nil_iff.mpr (fun ev h => by simp [hrest ev h])
    rw [h2]
    simpa using resEvents_count rl f id hnd
  · intro v hv
    rcases List.mem_append.mp hv with hv | hv
    · exact resEvents_value rl f id v hv
    · have := hrest _ hv
      simp [isResEventFor] at this

theorem sessionEventsOf_spec (s : SessionState) (id : Str)
    (hnd : s.resourcesHasChanged.Nodup) :
    (((sessionEventsOf s).filter (isResEventFor id)).length ≤ 1) ∧
    (∀ v, SessionEvent.resource id v ∈ sessionEventsOf s → v = lookupA s.resources id) := by
  unfold sessionEventsOf
  refine sessionEvents_resource_spec s.resourcesHasChanged _ _ id hnd ?_
  intro ev hev
  simp only [List.mem_append, List.mem_map] at hev
  rcases hev with ⟨j, hj, rfl⟩ | ⟨j, hj, rfl⟩ | ⟨j, hj, rfl⟩ | hev
  · rfl
  · rfl
  · rfl
  · by_cases hb : s.activeTriggersHasChanged
    · rw [if_pos hb] at hev
      rcases List.mem_singleton.mp hev with rfl
      rfl
    · rw [if_neg hb] at hev
      cases hev

theorem emitEverythingPass_resources (s : SessionState) :
    (emitEverythingPass s).resources = s.resources := by
  unfold emitEverythingPass
  by_cases h : s.emitEverything <;> simp [h]

theorem emitEverythingPass_marks_nodup (s : SessionState)
    (h : s.resourcesHasChanged.Nodup) :
    (emitEverythingPass s).resourcesHasChanged.Nodup := by
  unfold emitEverythingPass
  by_cases hev : s.emitEverything
  · rw [if_pos hev]
    exact nodup_foldl_markChanged _ _ h
  · rw [if_neg hev]
    exact h

/-- C9: `SessionHandler` mutators apply their state change synchronously —
the matching getter observes the new value immediately after the call,
while the mutator only schedules the debounce timer (no event is emitted by
a mutator: in this embedding events arise solely from the timer firing,
mirroring the source where `emit` occurs only inside `emitChanges`); and
any number of mutations within one debounce window collapse into a single
batched emission pass: the fired events contain at most one `resource`
event per id, and such an event carries the state current at fire time, not
one broadcast per mutation. -/
theorem C9_session_debounce (st : SessionState) (hwf : sessionWF st) :
    (∀ id r, getResource (updateResource st id (some r)) id = some r) ∧
    (∀ id b, getBridgeStatus (updateBridgeStatus st id (some b)) id = some b) ∧
    (∀ bridgeId deviceId deviceName connected now,
      getPeripheralStatus (updatePeripheralStatus st bridgeId deviceId deviceName connected now)
          bridgeId deviceId
        = some (newPeripheralDevice st bridgeId deviceId deviceName connected now)) ∧
    (∀ op, (applySessionOp st op).emitTimeout = true) ∧
    (∀ ops id,
      (((fireEmitTimeout (applySessionOps st ops)).2.filter (isResEventFor id)).length ≤ 1) ∧
      (∀ v, SessionEvent.resource id v ∈ (fireEmitTimeout (applySessionOps st ops)).2 →
        v = lookupA (applySessionOps st ops).resources id)) := by
  have hgetTrig : ∀ (st' : SessionState) (id : Str),
      getResource (triggerUpdate st') id = getResource st' id := by
    intro st' id
    unfold triggerUpdate
    by_cases h : st'.emitTimeout <;> simp [h, getResource]
  have hgetTrigB : ∀ (st' : SessionState) (id : Str),
      getBridgeStatus (triggerUpdate st') id = getBridgeStatus st' id := by
    intro st' id
    unfold triggerUpdate
    by_cases h : st'.emitTimeout <;> simp [h, getBridgeStatus]
  have hgetTrigP : ∀ (st' : SessionState) (a b : Str),
      getPeripheralStatus (triggerUpdate st') a b = getPeripheralStatus st' a b := by
    intro st' a b
    unfold triggerUpdate
    by_cases h : st'.emitTimeout <;> simp [h, getPeripheralStatus]
  refine ⟨?_, ?_, ?_, ?_, ?_⟩
  · intro id r
    unfold updateResource
    rw [hgetTrig]
    exact lookupA_setA_self _ _ _
  · intro id b
    unfold updateBridgeStatus
    rw [hgetTrigB]
    exact lookupA_setA_self _ _ _
  · intro bridgeId deviceId deviceName connected now
    unfold updatePeripheralStatus
    rw [hgetTrigP]
    by_cases hp : lookupA st.peripherals (bridgeId ++ '-' :: deviceId)
        = some (newPeripheralDevice st bridgeId deviceId deviceName connected now)
    · rw [if_pos hp]
      exact hp
    · rw [if_neg hp]
      exact lookupA_setA_self _ _ _
  · intro op
    cases op with
    | updRes id r =>
      show (updateResource st id r).emitTimeout = true
      unfold updateResource
      exact emitTimeout_triggerUpdate _
    | updBridge id b =>
      show (updateBridgeStatus st id b).emitTimeout = true
      unfold updateBridgeStatus
      exact emitTimeout_triggerUpdate _
    | updPeripheral bridgeId deviceId deviceName connected now =>
      show (updatePeripheralStatus st bridgeId deviceId deviceName connected now).emitTimeout
        = true
      unfold updatePeripheralStatus
      exact emitTimeout_triggerUpdate _
    | updTrigger bridgeId deviceId identifier down =>
      show (updatePeripheralTriggerStatus st bridgeId deviceId identifier down).emitTimeout
        = true
      unfold updatePeripheralTriggerStatus
      exact emitTimeout_triggerUpdate _
  · intro ops id
    have hwf' := sessionWF_applySessionOps st ops hwf
    unfold fireEmitTimeout
    by_cases hto : (applySessionOps st ops).emitTimeout
    · rw [if_pos hto]
      have hpair : (emitChanges { applySessionOps st ops with emitTimeout := false }).2
          = sessionEventsOf
            (emitEverythingPass { applySessionOps st ops with emitTimeout := false }) := rfl
      rw [hpair]
      have hnd : (emitEverythingPass
          { applySessionOps st ops with emitTimeout := false }).resourcesHasChanged.Nodup :=
        emitEverythingPass_marks_nodup _ hwf'.1
      have hres := sessionEventsOf_spec
        (emitEverythingPass { applySessionOps st ops with emitTimeout := false }) id hnd
      rw [emitEverythingPass_resources] at hres
      exact hres
    · rw [if_neg hto]
      exact ⟨by simp, fun v hv => absurd hv (by simp)⟩


theorem C9_session_debounce_witness :
    getResource
      (updateResource ⟨[], [], [], [], [], [], [], [], [], false, false, false⟩
        (("r1").toList) (some ⟨("dev").toList, ("x").toList⟩))
      (("r1").toList)
    = some ⟨("dev").toList, ("x").toList⟩ :=
  (C9_session_debounce ⟨[], [], [], [], [], [], [], [], [], false, false, false⟩
    (by constructor <;> simp [List.Nodup])).1 (("r1").toList) ⟨("dev").toList, ("x").toList⟩

/-! ## Timeline materializer (src/unnamed/part_001)

String helpers first: decimal rendering for the template literals
`` `${id}_${count}` `` and the global-regex literal replacement
`str.replace(new RegExp(oldId, 'g'), newId)` used by
`updateTimelineExpression`.  Both are written with structural fuel so that
they evaluate inside the kernel. -/

def digitChar (n : Nat) : Char := Char.ofNat (48 + n)

/-- Decimal digits of a number, fuelled (fuel `n` always suffices). -/
def natDigitsAux : Nat → Nat → List Char
  | 0, n => [digitChar n]
  | Nat.succ f, n =>
    if n < 10 then [digitChar n] else natDigitsAux f (n / 10) ++ [digitChar (n % 10)]

/-- The decimal string of a number, as produced by JS template literals. -/
def numStr (n : Nat) : Str := natDigitsAux n n

/-- `` `${id}_${count}` ``. -/
def suffixId (id : Str) (count : Nat) : Str := id ++ '_' :: numStr count

def parseDigits (l : List Char) : Nat := l.foldl (fun a c => a * 10 + (c.toNat - 48)) 0

theorem parseDigits_append_digit (l : List Char) (c : Char) :
    parseDigits (l ++ [c]) = parseDigits l * 10 + (c.toNat - 48) := by
  unfold parseDigits
  rw [List.foldl_append]
  rfl

theorem digitChar_toNat (n : Nat) (h : n < 10) : (digitChar n).toNat = 48 + n := by
  interval_cases n <;> decide

theorem parseDigits_natDigitsAux (f : Nat) :
    ∀ n, n ≤ f ∨ n < 10 → parseDigits (natDigitsAux f n) = n := by
  induction f with
  | zero =>
    intro n hn
    have h10 : n < 10 := by omega
    show parseDigits [digitChar n] = n
    unfold parseDigits
    simp [digitChar_toNat n h10]
  | succ f ih =>
    intro n hn
    unfold natDigitsAux
    by_cases h10 : n < 10
    · rw [if_pos h10]
      unfold parseDigits
      simp [digitChar_toNat n h10]
    · rw [if_neg h10]
      rw [parseDigits_append_digit]
      have hdiv : n / 10 ≤ f := by
        have hlt : n / 10 < n := Nat.div_lt_self (by omega) (by omega)
        omega
      rw [ih (n / 10) (Or.inl hdiv)]
      rw [digitChar_toNat (n % 10) (Nat.mod_lt _ (by omega))]
      omega

theorem parseDigits_numStr (n : Nat) : parseDigits (numStr n) = n :=
  parseDigits_natDigitsAux n n (Or.inl le_rfl)

theorem numStr_inj (m n : Nat) (h : numStr m = numStr n) : m = n := by
  have := parseDigits_numStr m
  rw [h, parseDigits_numStr] at this
  omega

theorem natDigitsAux_ne_nil (f n : Nat) : natDigitsAux f n ≠ [] := by
  cases f with
  | zero => simp [natDigitsAux]
  | succ f =>
    unfold natDigitsAux
    by_cases h : n < 10
    · simp [h]
    · simp [h]

theorem numStr_ne_nil (n : Nat) : numStr n ≠ [] := natDigitsAux_ne_nil n n

theorem suffixId_inj (b : Str) (m n : Nat) (h : suffixId b m = suffixId b n) : m = n := by
  unfold suffixId at h
  have h2 := List.append_cancel_left h
  injection h2 with h2a h2b
  exact numStr_inj m n h2b

theorem suffixId_length (b : Str) (n : Nat) :
    b.length + 2 ≤ (suffixId b n).length := by
  unfold suffixId
  have := numStr_ne_nil n
  have hlen : 1 ≤ (numStr n).length := by
    cases hh : numStr n with
    | nil => exact absurd hh this
    | cons c cs => simp
  simp only [List.length_append, List.length_cons]
  omega

theorem suffixId_ne_base (b : Str) (n : Nat) : suffixId b n ≠ b := by
  intro h
  have := suffixId_length b n
  rw [h] at this
  omega

theorem suffixId_head (b : Str) (c : Char) (rest : Str) (hb : b = c :: rest) (n : Nat) :
    ∃ rest', suffixId b n = c :: rest' := by
  subst hb
  exact ⟨rest ++ '_' :: numStr n, by simp [suffixId]⟩

/-- `str.replace(new RegExp(p, 'g'), r)` for a literal pattern: leftmost,
non-overlapping, single pass, fuelled by the subject length. -/
def replaceAllAux : Nat → Str → Str → Str → Str
  | 0, s, _, _ => s
  | Nat.succ _, [], _, _ => []
  | Nat.succ fuel, c :: s', p, r =>
    if p ≠ [] ∧ p.isPrefixOf (c :: s') then
      r ++ replaceAllAux fuel ((c :: s').drop p.length) p r
    else c :: replaceAllAux fuel s' p r

def replaceAll (s p r : Str) : Str := replaceAllAux s.length s p r

theorem replaceAllAux_self (p : Str) (fuel : Nat) :
    ∀ s : Str, s.length ≤ fuel → replaceAllAux fuel s p p = s := by
  induction fuel with
  | zero => intro s h; rfl
  | succ fuel ih =>
    intro s hs
    match s with
    | [] => rfl
    | c :: s' =>
      show replaceAllAux (fuel + 1) (c :: s') p p = c :: s'
      rw [replaceAllAux]
      by_cases hp : p ≠ [] ∧ p.isPrefixOf (c :: s')
      · rw [if_pos hp]
        obtain ⟨t, ht⟩ := (List.isPrefixOf_iff_prefix.mp hp.2)
        have hlenp : 1 ≤ p.length := by
          cases hpp : p with
          | nil => exact absurd hpp hp.1
          | cons a as => simp
        rw [← ht, List.drop_left]
        rw [ih t (by
          have : p.length + t.length = s'.length + 1 := by
            have := congrArg List.length ht
            simpa using this
          simp at hs ⊢
          omega)]
      · rw [if_neg hp]
        rw [ih s' (by simp at hs; omega)]

theorem replaceAll_self (s p : Str) : replaceAll s p p = s :=
  replaceAllAux_self p s.length s le_rfl

theorem replaceAllAux_of_not_infix (p : Str) (fuel : Nat) :
    ∀ (s : Str) (r : Str), s.length ≤ fuel → ¬ p <:+: s → replaceAllAux fuel s p r = s := by
  induction fuel with
  | zero => intro s r h hinf; rfl
  | succ fuel ih =>
    intro s r hs hinf
    match s with
    | [] => rfl
    | c :: s' =>
      show replaceAllAux (fuel + 1) (c :: s') p r = c :: s'
      rw [replaceAllAux]
      rw [if_neg (by
        rintro ⟨hp, hpre⟩
        exact hinf ((List.isPrefixOf_iff_prefix.mp hpre).isInfix))]
      rw [ih s' r (by simp at hs; omega)
        (fun h => hinf (h.trans (List.suffix_cons c s').isInfix))]

theorem replaceAll_of_not_infix (s p r : Str) (h : ¬ p <:+: s) : replaceAll s p r = s :=
  replaceAllAux_of_not_infix p s.length s r le_rfl h

/-- A JS number that can be `Infinity`. -/
inductive JNum where
  | fin (n : Int)
  | inf
deriving DecidableEq, Repr

def JNum.minJ : JNum → JNum → JNum
  | .fin a, .fin b => .fin (min a b)
  | .fin a, .inf => .fin a
  | .inf, .fin b => .fin b
  | .inf, .inf => .inf

def JNum.maxJ : JNum → JNum → JNum
  | .fin a, .fin b => .fin (max a b)
  | _, .inf => .inf
  | .inf, _ => .inf

/-- A superfly-timeline `Expression`: a number, a string, or an expression
object with `l`/`r` sub-expressions.  `inf` is the number `Infinity`. -/
inductive Expr where
  | num (n : Int)
  | inf
  | str (s : Str)
  | bin (l r : Expr)
deriving DecidableEq, Repr

def jnumToExpr : JNum → Expr
  | .fin n => .num n
  | .inf => .inf

/-- A `TimelineEnable`; the source fields `end` and `while` are named `endE`
and `whileE` here. -/
structure TimelineEnable where
  start : Option Expr
  endE : Option Expr
  duration : Option Expr
  repeating : Option Expr
  whileE : Option Expr
deriving DecidableEq, Repr

structure TimelineKeyframe where
  id : Str
  enable : List TimelineEnable
deriving DecidableEq, Repr

/-- A `TimelineObject`; `enable` is the `ensureArray`-normalised list of
enables. -/
inductive TimelineObject where
  | mk (id : Str) (enable : List TimelineEnable) (layer : Str)
      (children : List TimelineObject) (keyframes : List TimelineKeyframe)

def TimelineObject.id : TimelineObject → Str
  | .mk i _ _ _ _ => i

def TimelineObject.enable : TimelineObject → List TimelineEnable
  | .mk _ e _ _ _ => e

def TimelineObject.layer : TimelineObject → Str
  | .mk _ _ l _ _ => l

def TimelineObject.children : TimelineObject → List TimelineObject
  | .mk _ _ _ c _ => c

def TimelineObject.keyframes : TimelineObject → List TimelineKeyframe
  | .mk _ _ _ _ k => k

mutual
/-- All object and keyframe ids of a timeline-object tree. -/
def treeIds : TimelineObject → List Str
  | .mk id _ _ children keyframes =>
    id :: (treeIdsList children ++ keyframes.map TimelineKeyframe.id)

def treeIdsList : List TimelineObject → List Str
  | [] => []
  | o :: rest => treeIds o ++ treeIdsList rest
end

/-- The shared `idCount` map of `getTimelineForGroup` (part_001 27):
`idCount.get(id) || 0` is plain application, `idCount.set` is pointwise
update. -/
def idCountSet (m : Str → Nat) (id : Str) (v : Nat) : Str → Nat :=
  fun k => if k = id then v else m k

/-- `makeUniqueId` (part_001 28-32): always suffixes with the running count. -/
def makeUniqueId (id : Str) (m : Str → Nat) : Str × (Str → Nat) :=
  (suffixId id (m id), idCountSet m id (m id + 1))

/-- `getUniqueId` (part_001 33-39): the first occurrence keeps the id
verbatim, later occurrences get the counter suffix. -/
def getUniqueId (id : Str) (m : Str → Nat) : Str × (Str → Nat) :=
  ((if m id = 0 then id else suffixId id (m id)), idCountSet m id (m id + 1))

/-- `changeTimelineIdInnerKeyframe` (part_001 305-313): note that the source
sets `changedIds.set(obj.id, newId)` after assigning `obj.id = newId`, so
the map entry is keyed by the new id (mapping it to itself). -/
def changeTimelineIdInnerKeyframe (chg : List (Str × Str)) (cnt : Str → Nat)
    (kf : TimelineKeyframe) : TimelineKeyframe × List (Str × Str) × (Str → Nat) :=
  let newId := (getUniqueId kf.id cnt).1
  (⟨newId, kf.enable⟩, setA chg newId newId, (getUniqueId kf.id cnt).2)

def changeTimelineIdInnerKeyframes (chg : List (Str × Str)) (cnt : Str → Nat) :
    List TimelineKeyframe → List TimelineKeyframe × List (Str × Str) × (Str → Nat)
  | [] => ([], chg, cnt)
  | kf :: rest =>
    let r1 := changeTimelineIdInnerKeyframe chg cnt kf
    let r2 := changeTimelineIdInnerKeyframes r1.2.1 r1.2.2 rest
    (r1.1 :: r2.1, r2.2)

mutual
/-- `changeTimelineIdInnerObj` (part_001 285-304): rewrite the object's id,
record old-to-new in `changedIds`, then recurse into children and
keyframes. -/
def changeTimelineIdInnerObj (chg : List (Str × Str)) (cnt : Str → Nat)
    (o : TimelineObject) : TimelineObject × List (Str × Str) × (Str → Nat) :=
  match o with
  | .mk oldId enable layer children keyframes =>
    let newId := (getUniqueId oldId cnt).1
    let cnt1 := (getUniqueId oldId cnt).2
    let chg1 := setA chg oldId newId
    let rc := changeTimelineIdInnerObjs chg1 cnt1 children
    let rk := changeTimelineIdInnerKeyframes rc.2.1 rc.2.2 keyframes
    (.mk newId enable layer rc.1 rk.1, rk.2)

def changeTimelineIdInnerObjs (chg : List (Str × Str)) (cnt : Str → Nat)
    (os : List TimelineObject) : List TimelineObject × List (Str × Str) × (Str → Nat) :=
  match os with
  | [] => ([], chg, cnt)
  | o :: rest =>
    let r1 := changeTimelineIdInnerObj chg cnt o
    let r2 := changeTimelineIdInnerObjs r1.2.1 r1.2.2 rest
    (r1.1 :: r2.1, r2.2)
end

/-- JS falsiness of an `Expression` (`if (!expr) return expr`): `0` and the
empty string are falsy. -/
def jsFalsyExpr : Expr → Bool
  | .num n => n == 0
  | .str s => s.isEmpty
  | _ => false

/-- `updateTimelineExpression` (part_001 342-359) on a present expression:
strings get every changed id replaced via a global literal-regex pass, in
`changedIds` insertion order; expression objects recurse into `l` and `r`. -/
def updateExpr (chg : List (Str × Str)) (e : Expr) : Expr :=
  if jsFalsyExpr e then e
  else
    match e with
    | .num n => .num n
    | .inf => .inf
    | .str s => .str (chg.foldl (fun acc kv => replaceAll acc kv.1 kv.2) s)
    | .bin l r => .bin (updateExpr chg l) (updateExpr chg r)

def updateTimelineExpression (chg : List (Str × Str)) : Option Expr → Option Expr
  | none => none
  | some e => some (updateExpr chg e)

/-- `updateTimelineEnable` (part_001 329-341): with `pauseLastFrame = true`
the source sets `enable.duration = Infinity` unconditionally. -/
def updateTimelineEnable (chg : List (Str × Str)) (en : TimelineEnable) : TimelineEnable :=
  { start := updateTimelineExpression chg en.start
    endE := updateTimelineExpression chg en.endE
    duration := some Expr.inf
    repeating := updateTimelineExpression chg en.repeating
    whileE := updateTimelineExpression chg en.whileE }

mutual
/-- `updateTimelineReferences` (part_001 314-327). -/
def updateTimelineReferences (chg : List (Str × Str)) (o : TimelineObject) : TimelineObject :=
  match o with
  | .mk id enable layer children keyframes =>
    .mk id (enable.map (updateTimelineEnable chg)) layer
      (updateTimelineReferencesList chg children)
      (keyframes.map (fun kf => ⟨kf.id, kf.enable.map (updateTimelineEnable chg)⟩))

def updateTimelineReferencesList (chg : List (Str × Str)) :
    List TimelineObject → List TimelineObject
  | [] => []
  | o :: rest => updateTimelineReferences chg o :: updateTimelineReferencesList chg rest
end

/-- `changeTimelineId` (part_001 276-283): collect the id map over the tree
with a fresh `changedIds`, then rewrite every reference. -/
def changeTimelineId (o : TimelineObject) (cnt : Str → Nat) :
    TimelineObject × (Str → Nat) :=
  let r := changeTimelineIdInnerObj [] cnt o
  (updateTimelineReferences r.2.1 r.1, r.2.2)

/-- An entry of `part.timeline` (only the timeline object matters here). -/
structure PartTimelineEntry where
  obj : TimelineObject

/-- The slice of a Part read by `partToTimelineObj`: `part.resolved.duration`
(`none` models `null`), `part.loop`, and the object list. -/
structure PartData where
  id : Str
  loop : Bool
  duration : Option JNum
  timeline : List PartTimelineEntry

/-- A `GroupPreparedPlayDataPart`. -/
structure GroupPreparedPlayDataPart where
  startTime : Int
  part : PartData

/-- A `GroupPreparedPlayDataSection`. -/
structure GroupPreparedPlayDataSection where
  startTime : Int
  endTime : Option Int
  pauseTime : Option Int
  stopTime : Option Int
  repeating : Bool
  duration : JNum
  parts : List GroupPreparedPlayDataPart

/-- The `type: 'single'` variant of `GroupPreparedPlayData` (the claims under
verification are about the single branch of `getTimelineForGroup`; the
`'multi'` branch is not modelled). -/
structure GroupPreparedPlayDataSingle where
  sections : List GroupPreparedPlayDataSection

/-- Modelled from the spec: `modifyTimelineObjectForPlayout`
(lib/TimelineObj.ts) is not under src/.  Per spec section 4.3 the Part's
timeline objects are emitted as copies with their ids unchanged, and pause
semantics drop `duration`/`repeating` from the emitted enables when the
part is paused. -/
def modifyTimelineObjectForPlayout (obj : TimelineObject) (pauseTime : Option Int) :
    TimelineObject :=
  if pauseTime.isSome then
    match obj with
    | .mk id enable layer children keyframes =>
      .mk id (enable.map (fun en => { en with duration := none, repeating := none }))
        layer children keyframes
  else obj

/-- `partToTimelineObj` (part_001 232-275): the part-instance wrapper object;
its id and layer are the `makeUniqueId`-generated object id; a paused part
drops `duration` and `repeating`. -/
def partToTimelineObj (objId : Str) (playingPart : GroupPreparedPlayDataPart)
    (startTime : Int) (pauseTime : Option Int) : TimelineObject :=
  .mk objId
    [⟨some (.num startTime),
      none,
      (if pauseTime.isSome then none else playingPart.part.duration.map jnumToExpr),
      (if pauseTime.isSome then none
        else if playingPart.part.loop then playingPart.part.duration.map jnumToExpr else none),
      none⟩]
    objId
    (playingPart.part.timeline.map (fun o => modifyTimelineObjectForPlayout o.obj pauseTime))
    []

/-- The loop over `section.parts` (part_001 209-223): each part instance gets
a `makeUniqueId` object id, is built by `partToTimelineObj` and then fully
rewritten with `changeTimelineId`/`getUniqueId`. -/
def sectionPartsToObjs (sec : GroupPreparedPlayDataSection) :
    List GroupPreparedPlayDataPart → (Str → Nat) → List TimelineObject × (Str → Nat)
  | [], cnt => ([], cnt)
  | part :: rest, cnt =>
    let mk := makeUniqueId part.part.id cnt
    let obj := partToTimelineObj mk.1 part (part.startTime - sec.startTime) sec.pauseTime
    let ch := changeTimelineId obj mk.2
    let r := sectionPartsToObjs sec rest ch.2
    (ch.1 :: r.1, r.2)

/-- `sectionToTimelineObj` (part_001 159-230): the sec wrapper (absolute
`start`, hard-coded `end: undefined`) holding the sec-content object
(relative `start: 0`, `repeating` from the sec) holding the part
instances; nothing is emitted when no part instance was produced. -/
def sectionToTimelineObj (sec : GroupPreparedPlayDataSection) (id : Str) (layer : Str)
    (cnt : Str → Nat) : List TimelineObject × (Str → Nat) :=
  let fold := sectionPartsToObjs sec sec.parts cnt
  let sectionContentObj : TimelineObject :=
    .mk (("section_content_").toList ++ id)
      [⟨some (.num 0), none, none,
        (if sec.repeating then some (jnumToExpr sec.duration) else none), none⟩]
      (layer ++ ("_content").toList)
      fold.1 []
  let sectionObj : TimelineObject :=
    .mk (("section_").toList ++ id)
      [⟨some (.num sec.startTime), none, none, none, none⟩]
      layer [sectionContentObj] []
  (if fold.1.length > 0 then [sectionObj] else [], fold.2)

/-- `sec.endTime || Infinity` (JS `||`: `0` and `null` give `Infinity`). -/
def jsOrInf (endTime : Option Int) : JNum :=
  match endTime with
  | some v => if v = 0 then .inf else .fin v
  | none => .inf

/-- The section loop of the `'single'` branch of `getTimelineForGroup`
(part_001 48-68): accumulate `firstStart`/`lastEnd`, emit each section with
id `` `${group.id}_${i}` `` on layer `group.id`, threading the shared
`idCount`.  With `pauseLastFrame = true`, `lastEnd` becomes `Infinity` for
any section without `stopTime`. -/
def singleSectionsLoop (groupId : Str) :
    List GroupPreparedPlayDataSection → Nat → (Str → Nat) → JNum → JNum →
    List TimelineObject → JNum × JNum × List TimelineObject × (Str → Nat)
  | [], _, cnt, firstStart, lastEnd, children => (firstStart, lastEnd, children, cnt)
  | sec :: rest, i, cnt, firstStart, lastEnd, children =>
    let firstStart1 := JNum.minJ (.fin sec.startTime) firstStart
    let lastEnd1 :=
      if sec.stopTime.isSome then JNum.maxJ (jsOrInf sec.endTime) lastEnd
      else JNum.inf
    let r := sectionToTimelineObj sec (groupId ++ '_' :: numStr i) groupId cnt
    singleSectionsLoop groupId rest (i + 1) r.2 firstStart1 lastEnd1 (children ++ r.1)

/-- Rebasing a child of the group wrapper (part_001 87-93): numeric `start`
and `end` get `firstStart` subtracted (`Infinity` stays `Infinity`, symbolic
expressions are untouched); only the wrapper's direct children are
rewritten. -/
def rebaseEnable (fs : Int) (en : TimelineEnable) : TimelineEnable :=
  { en with
    start :=
      match en.start with
      | some (.num n) => some (.num (n - fs))
      | some .inf => some .inf
      | other => other
    endE :=
      match en.endE with
      | some (.num n) => some (.num (n - fs))
      | some .inf => some .inf
      | other => other }

def rebaseObj (fs : Int) (o : TimelineObject) : TimelineObject :=
  match o with
  | .mk id enable layer children keyframes =>
    .mk id (enable.map (rebaseEnable fs)) layer children keyframes

/-- `getTimelineForGroup` (part_001 22-157) restricted to `'single'` prepared
play data; `none` prepared data yields `null`.  The group wrapper spans
`firstStart`..`lastEnd` and its children are rebased to be relative to
`firstStart`.  (The `JNum.inf` case of `firstStart` is unreachable when the
wrapper is emitted, since every section contributes a finite start; the
children are returned unrebased there, mirroring that no finite subtraction
happens.) -/
def buildSingleTimeline (groupId : Str) (firstStart lastEnd : JNum)
    (children : List TimelineObject) : Option (List TimelineObject) :=
  if children.length > 0 then
    match firstStart with
    | .fin fs =>
      some [TimelineObject.mk (("group_").toList ++ groupId)
        [⟨some (.num fs),
          (match lastEnd with | .inf => none | .fin v => some (.num v)),
          none, none, none⟩]
        (("__group_").toList ++ groupId)
        (children.map (rebaseObj fs)) []]
    | .inf =>
      some [TimelineObject.mk (("group_").toList ++ groupId)
        [⟨some .inf,
          (match lastEnd with | .inf => none | .fin v => some (.num v)),
          none, none, none⟩]
        (("__group_").toList ++ groupId)
        children []]
  else some []

def getTimelineForGroup (groupId : Str)
    (prepared : Option GroupPreparedPlayDataSingle) : Option (List TimelineObject) :=
  match prepared with
  | none => none
  | some prep =>
    match singleSectionsLoop groupId prep.sections 0 (fun _ => 0) JNum.inf (JNum.fin 0) [] with
    | (firstStart, lastEnd, children, _) =>
      buildSingleTimeline groupId firstStart lastEnd children

theorem sectionPartsToObjs_length (sec : GroupPreparedPlayDataSection) :
    ∀ (parts : List GroupPreparedPlayDataPart) (cnt : Str → Nat),
    (sectionPartsToObjs sec parts cnt).1.length = parts.length := by
  intro parts
  induction parts with
  | nil => intro cnt; rfl
  | cons part rest ih =>
    intro cnt
    show (sectionPartsToObjs sec (part :: rest) cnt).1.length = rest.length + 1
    rw [sectionPartsToObjs]
    simp only [List.length_cons]
    rw [ih]

theorem sectionToTimelineObj_eval (sec : GroupPreparedPlayDataSection) (id layer : Str)
    (cnt : Str → Nat) :
    (sectionToTimelineObj sec id layer cnt).1
      = if (sectionPartsToObjs sec sec.parts cnt).1.length > 0 then
          [TimelineObject.mk (("section_").toList ++ id)
            [⟨some (Expr.num sec.startTime), none, none, none, none⟩] layer
            [TimelineObject.mk (("section_content_").toList ++ id)
              [⟨some (Expr.num 0), none, none,
                (if sec.repeating then some (jnumToExpr sec.duration) else none), none⟩]
              (layer ++ ("_content").toList)
              (sectionPartsToObjs sec sec.parts cnt).1 []] []]
        else [] := rfl

theorem sectionToTimelineObj_shape (sec : GroupPreparedPlayDataSection) (id layer : Str)
    (cnt : Str → Nat) :
    (sec.parts = [] ∧ (sectionToTimelineObj sec id layer cnt).1 = []) ∨
    (sec.parts ≠ [] ∧ ∃ content : TimelineObject,
      (sectionToTimelineObj sec id layer cnt).1
        = [TimelineObject.mk (("section_").toList ++ id)
            [⟨some (Expr.num sec.startTime), none, none, none, none⟩] layer [content] []]) := by
  cases hp : sec.parts with
  | nil =>
    left
    refine ⟨rfl, ?_⟩
    rw [sectionToTimelineObj_eval]
    have hlen : (sectionPartsToObjs sec sec.parts cnt).1.length = 0 := by
      rw [sectionPartsToObjs_length, hp]
      rfl
    rw [if_neg (by omega)]
  | cons p rest =>
    right
    refine ⟨by simp [hp], ?_⟩
    rw [sectionToTimelineObj_eval]
    have hlen : (sectionPartsToObjs sec sec.parts cnt).1.length = rest.length + 1 := by
      rw [sectionPartsToObjs_length, hp]
      rfl
    exact ⟨TimelineObject.mk (("section_content_").toList ++ id)
      [⟨some (Expr.num 0), none, none,
        (if sec.repeating then some (jnumToExpr sec.duration) else none), none⟩]
      (layer ++ ("_content").toList)
      (sectionPartsToObjs sec sec.parts cnt).1 [], by rw [if_pos (by omega)]⟩

theorem singleSectionsLoop_spec (groupId : Str)
    (sections : List GroupPreparedPlayDataSection) :
    ∀ (i : Nat) (cnt : Str → Nat) (firstStart lastEnd : JNum)
      (children : List TimelineObject),
    ∃ (cnt' : Str → Nat) (lastEnd' : JNum) (extra : List TimelineObject),
      singleSectionsLoop groupId sections i cnt firstStart lastEnd children
        = (sections.foldl (fun acc s => JNum.minJ (.fin s.startTime) acc) firstStart,
           lastEnd', children ++ extra, cnt') ∧
      extra.map TimelineObject.enable
        = (sections.filter (fun s => !s.parts.isEmpty)).map
            (fun s => [⟨some (Expr.num s.startTime), none, none, none, none⟩]) := by
  induction sections with
  | nil =>
    intro i cnt firstStart lastEnd children
    exact ⟨cnt, lastEnd, [], by simp [singleSectionsLoop], by simp⟩
  | cons sec rest ih =>
    intro i cnt firstStart lastEnd children
    rw [singleSectionsLoop]
    rcases sectionToTimelineObj_shape sec (groupId ++ '_' :: numStr i) groupId cnt with
      ⟨hp, hobjs⟩ | ⟨hp, content, hobjs⟩
    · obtain ⟨cnt', lastEnd', extra, heq, hmap⟩ := ih (i + 1)
        (sectionToTimelineObj sec (groupId ++ '_' :: numStr i) groupId cnt).2
        (JNum.minJ (.fin sec.startTime) firstStart)
        (if sec.stopTime.isSome then JNum.maxJ (jsOrInf sec.endTime) lastEnd else JNum.inf)
        (children ++ (sectionToTimelineObj sec (groupId ++ '_' :: numStr i) groupId cnt).1)
      refine ⟨cnt', lastEnd', extra, ?_, ?_⟩
      · rw [heq, hobjs]
        simp
      · rw [hmap, List.filter_cons]
        rw [if_neg (by simp [hp])]
    · obtain ⟨cnt', lastEnd', extra, heq, hmap⟩ := ih (i + 1)
        (sectionToTimelineObj sec (groupId ++ '_' :: numStr i) groupId cnt).2
        (JNum.minJ (.fin sec.startTime) firstStart)
        (if sec.stopTime.isSome then JNum.maxJ (jsOrInf sec.endTime) lastEnd else JNum.inf)
        (children ++ (sectionToTimelineObj sec (groupId ++ '_' :: numStr i) groupId cnt).1)
      refine ⟨cnt', lastEnd',
        TimelineObject.mk (("section_").toList ++ (groupId ++ '_' :: numStr i))
          [⟨some (Expr.num sec.startTime), none, none, none, none⟩] groupId [content] []
          :: extra, ?_, ?_⟩
      · rw [heq, hobjs]
        simp
      · rw [List.filter_cons, if_pos (by simp [hp])]
        simp only [List.map_cons, List.map_cons]
        rw [hmap]
        rfl

theorem foldl_minJ_from_fin (a : Int) (rest : List GroupPreparedPlayDataSection) :
    ∃ fs : Int,
      rest.foldl (fun acc s => JNum.minJ (.fin s.startTime) acc) (JNum.fin a) = .fin fs ∧
      fs ≤ a ∧ (∀ s ∈ rest, fs ≤ s.startTime) ∧
      (fs = a ∨ ∃ s ∈ rest, fs = s.startTime) := by
  induction rest generalizing a with
  | nil => exact ⟨a, rfl, le_rfl, by simp, Or.inl rfl⟩
  | cons s0 rest ih =>
    obtain ⟨fs, heq, hle, hall, hwit⟩ := ih (min s0.startTime a)
    refine ⟨fs, ?_, ?_, ?_, ?_⟩
    · rw [List.foldl_cons]
      show List.foldl _ (JNum.minJ (.fin s0.startTime) (.fin a)) rest = JNum.fin fs
      rw [show JNum.minJ (.fin s0.startTime) (.fin a) = .fin (min s0.startTime a) from rfl]
      exact heq
    · omega
    · intro s hs
      rcases List.mem_cons.mp hs with rfl | hs
      · omega
      · exact hall s hs
    · rcases hwit with h | ⟨s, hs, h⟩
      · rcases le_total s0.startTime a with hc | hc
        · right
          exact ⟨s0, List.mem_cons_self _ _, by omega⟩
        · left
          omega
      · right
        exact ⟨s, List.mem_cons_of_mem _ hs, h⟩

theorem foldl_minJ_spec (sections : List GroupPreparedPlayDataSection)
    (hne : sections ≠ []) :
    ∃ fs : Int,
      sections.foldl (fun acc s => JNum.minJ (.fin s.startTime) acc) JNum.inf = .fin fs ∧
      (∀ s ∈ sections, fs ≤ s.startTime) ∧ (∃ s ∈ sections, fs = s.startTime) := by
  match sections with
  | [] => exact absurd rfl hne
  | s0 :: rest =>
    obtain ⟨fs, heq, hle, hall, hwit⟩ := foldl_minJ_from_fin s0.startTime rest
    refine ⟨fs, ?_, ?_, ?_⟩
    · rw [List.foldl_cons]
      show List.foldl _ (JNum.minJ (.fin s0.startTime) JNum.inf) rest = JNum.fin fs
      rw [show JNum.minJ (.fin s0.startTime) JNum.inf = .fin s0.startTime from rfl]
      exact heq
    · intro s hs
      rcases List.mem_cons.mp hs with rfl | hs
      · exact hle
      · exact hall s hs
    · rcases hwit with h | ⟨s, hs, h⟩
      · exact ⟨s0, List.mem_cons_self _ _, h⟩
      · exact ⟨s, List.mem_cons_of_mem _ hs, h⟩

def jnumToOptEnd : JNum → Option Expr
  | .inf => none
  | .fin v => some (.num v)

theorem enable_rebaseObj (fs : Int) (o : TimelineObject) :
    TimelineObject.enable (rebaseObj fs o) = o.enable.map (rebaseEnable fs) := by
  cases o
  rfl

/-- C8: for `'single'` prepared data with at least one section holding a part
instance, the emitted tree is a single group wrapper whose `enable.start` is
`firstStart`, the minimum `startTime` over all sections, and every absolute
numeric `start`/`end` among its children — the section objects, one per
section with parts, which carry the only absolute times of the tree (their
`end` is hard-coded `undefined` and all deeper enables are relative) — is
rebased by subtracting `firstStart`. -/
theorem C8_time_normalization (groupId : Str) (prep : GroupPreparedPlayDataSingle)
    (hne : ∃ sec ∈ prep.sections, sec.parts ≠ []) :
    ∃ (fs : Int) (wrapperEnd : Option Expr) (children : List TimelineObject),
      (∀ s ∈ prep.sections, fs ≤ s.startTime) ∧
      (∃ s ∈ prep.sections, fs = s.startTime) ∧
      getTimelineForGroup groupId (some prep)
        = some [TimelineObject.mk (("group_").toList ++ groupId)
            [⟨some (Expr.num fs), wrapperEnd, none, none, none⟩]
            (("__group_").toList ++ groupId) children []] ∧
      children.map TimelineObject.enable
        = (prep.sections.filter (fun s => !s.parts.isEmpty)).map
            (fun s => [⟨some (Expr.num (s.startTime - fs)), none, none, none, none⟩]) := by
  obtain ⟨cnt', lastEnd', extra, heq, hmap⟩ :=
    singleSectionsLoop_spec groupId prep.sections 0 (fun _ => 0) JNum.inf (JNum.fin 0) []
  have hsecne : prep.sections ≠ [] := by
    obtain ⟨sec, hsec, _⟩ := hne
    intro h
    rw [h] at hsec
    cases hsec
  obtain ⟨fs, hfs, hall, hwit⟩ := foldl_minJ_spec prep.sections hsecne
  have hextrane : extra ≠ [] := by
    intro h
    rw [h] at hmap
    simp only [List.map_nil] at hmap
    obtain ⟨sec, hsec, hp⟩ := hne
    have hmem : sec ∈ prep.sections.filter (fun s => !s.parts.isEmpty) :=
      List.mem_filter.mpr ⟨hsec, by simp [hp]⟩
    have hnil : prep.sections.filter (fun s => !s.parts.isEmpty) = [] :=
      List.map_eq_nil_iff.mp hmap.symm
    rw [hnil] at hmem
    cases hmem
  refine ⟨fs, jnumToOptEnd lastEnd', extra.map (rebaseObj fs), hall, hwit, ?_, ?_⟩
  · have hstep : getTimelineForGroup groupId (some prep)
        = buildSingleTimeline groupId
          (prep.sections.foldl (fun acc s => JNum.minJ (.fin s.startTime) acc) JNum.inf)
          lastEnd' ([] ++ extra) := by
      simp only [getTimelineForGroup, heq]
    rw [hstep, List.nil_append]
    unfold buildSingleTimeline
    rw [if_pos (by
      cases hex : extra with
      | nil => exact absurd hex hextrane
      | cons a as => simp [hex])]
    rw [hfs]
    cases lastEnd' <;> rfl
  · rw [List.map_map]
    have hcomp : (TimelineObject.enable ∘ rebaseObj fs)
        = fun o => (TimelineObject.enable o).map (rebaseEnable fs) := by
      funext o
      exact enable_rebaseObj fs o
    rw [hcomp, show (fun o => (TimelineObject.enable o).map (rebaseEnable fs))
      = (List.map (rebaseEnable fs)) ∘ TimelineObject.enable from rfl, ← List.map_map,
      hmap, List.map_map]
    apply List.map_congr_left
    intro s hs
    rfl

theorem C8_time_normalization_witness :
    ∃ (fs : Int) (wrapperEnd : Option Expr) (children : List TimelineObject),
      (∀ s ∈ [(⟨100, none, none, none, false, JNum.fin 500,
          [⟨100, ⟨("p").toList, false, some (.fin 500),
            [⟨TimelineObject.mk (("x").toList)
              [⟨some (.num 0), none, none, none, none⟩] (("L").toList) [] []⟩]⟩⟩]⟩ :
          GroupPreparedPlayDataSection),
        ⟨50, none, none, none, false, JNum.fin 500, []⟩], fs ≤ s.startTime) ∧
      (∃ s ∈ [(⟨100, none, none, none, false, JNum.fin 500,
          [⟨100, ⟨("p").toList, false, some (.fin 500),
            [⟨TimelineObject.mk (("x").toList)
              [⟨some (.num 0), none, none, none, none⟩] (("L").toList) [] []⟩]⟩⟩]⟩ :
          GroupPreparedPlayDataSection),
        ⟨50, none, none, none, false, JNum.fin 500, []⟩], fs = s.startTime) ∧
      getTimelineForGroup (("G").toList)
        (some ⟨[⟨100, none, none, none, false, JNum.fin 500,
          [⟨100, ⟨("p").toList, false, some (.fin 500),
            [⟨TimelineObject.mk (("x").toList)
              [⟨some (.num 0), none, none, none, none⟩] (("L").toList) [] []⟩]⟩⟩]⟩,
          ⟨50, none, none, none, false, JNum.fin 500, []⟩]⟩)
        = some [TimelineObject.mk (("group_").toList ++ ("G").toList)
            [⟨some (Expr.num fs), wrapperEnd, none, none, none⟩]
            (("__group_").toList ++ ("G").toList) children []] ∧
      children.map TimelineObject.enable
        = (([⟨100, none, none, none, false, JNum.fin 500,
          [⟨100, ⟨("p").toList, false, some (.fin 500),
            [⟨TimelineObject.mk (("x").toList)
              [⟨some (.num 0), none, none, none, none⟩] (("L").toList) [] []⟩]⟩⟩]⟩,
          ⟨50, none, none, none, false, JNum.fin 500, []⟩] :
          List GroupPreparedPlayDataSection).filter (fun s => !s.parts.isEmpty)).map
            (fun s => [⟨some (Expr.num (s.startTime - fs)), none, none, none, none⟩]) :=
  C8_time_normalization (("G").toList)
    ⟨[⟨100, none, none, none, false, JNum.fin 500,
      [⟨100, ⟨("p").toList, false, some (.fin 500),
        [⟨TimelineObject.mk (("x").toList)
          [⟨some (.num 0), none, none, none, none⟩] (("L").toList) [] []⟩]⟩⟩]⟩,
      ⟨50, none, none, none, false, JNum.fin 500, []⟩]⟩
    ⟨⟨100, none, none, none, false, JNum.fin 500,
      [⟨100, ⟨("p").toList, false, some (.fin 500),
        [⟨TimelineObject.mk (("x").toList)
          [⟨some (.num 0), none, none, none, none⟩] (("L").toList) [] []⟩]⟩⟩]⟩,
      by simp, by simp⟩

/-! ## ID rewriting across repeated part expansions (claim C3)

A concrete materialization scenario exercising the rewrite machinery in
full: part `P` holds object `alpha` (with nested child `gamma` and keyframe
`kf`) and object `beta`; `alpha` references `#beta.end` as a flat string,
`gamma` references it inside an l/r expression tree, and the keyframe
references `#beta.start`; the prepared data repeats the part `n` times
inside one repeating section. -/

def aStr : Str := ("alpha").toList
def gStr : Str := ("gamma").toList
def kStr : Str := ("kf").toList
def bStr : Str := ("beta").toList
def pStr : Str := ("P").toList

def gammaObj : TimelineObject :=
  .mk gStr [⟨some (.bin (.str ('#' :: (bStr ++ (".end").toList))) (.num 5)),
    none, none, none, none⟩] (("L2").toList) [] []

def kfObj : TimelineKeyframe :=
  ⟨kStr, [⟨some (.str ('#' :: (bStr ++ (".start").toList))), none, none, none, none⟩]⟩

def alphaObj : TimelineObject :=
  .mk aStr [⟨some (.str ('#' :: (bStr ++ (".end").toList))), none, none, none, none⟩]
    (("L1").toList) [gammaObj] [kfObj]

def betaObj : TimelineObject :=
  .mk bStr [⟨some (.num 0), none, none, none, none⟩] (("L3").toList) [] []

def pPart : PartData := ⟨pStr, false, some (.fin 1000), [⟨alphaObj⟩, ⟨betaObj⟩]⟩

def pOcc : GroupPreparedPlayDataPart := ⟨0, pPart⟩

def pSection (n : Nat) : GroupPreparedPlayDataSection :=
  ⟨0, none, none, none, true, .fin 3000, List.replicate n pOcc⟩

def prepC3 (n : Nat) : GroupPreparedPlayDataSingle := ⟨[pSection n]⟩

/-- The rewritten variant of an original object id in expansion `i`: the
first occurrence keeps the id verbatim, later ones get the counter suffix. -/
def nm (b : Str) (i : Nat) : Str := if i = 0 then b else suffixId b i

/-- The object id of the part-instance wrapper of expansion `i`
(`makeUniqueId` always suffixes, even the first time). -/
def pId (i : Nat) : Str := suffixId pStr i

def baseIds : List Str := [aStr, gStr, kStr, bStr]

/-- The `idCount` state after `i` expansions: `P` and each original object id
have been seen `i` times, each wrapper id `P_j` (`j < i`) has been seen
once. -/
def cntAfter (i : Nat) : Str → Nat := fun k =>
  if k = pStr then i
  else if k ∈ baseIds then i
  else if (List.range i).any (fun j => k = pId j) then 1
  else 0

/-- Expansion `i` as emitted by the pipeline (computed below): all ids are
the `i`-th rewrites, every reference points at the same expansion's rewrite
of `beta`, and every rewritten enable has `duration = Infinity` (the
`pauseLastFrame` pass). -/
def expansionAt (i : Nat) : TimelineObject :=
  .mk (pId i) [⟨some (.num 0), none, some .inf, none, none⟩] (pId i)
    [.mk (nm aStr i)
        [⟨some (.str ('#' :: (nm bStr i ++ (".end").toList))), none, some .inf, none, none⟩]
        (("L1").toList)
        [.mk (nm gStr i)
          [⟨some (.bin (.str ('#' :: (nm bStr i ++ (".end").toList))) (.num 5)),
            none, some .inf, none, none⟩]
          (("L2").toList) [] []]
        [⟨nm kStr i,
          [⟨some (.str ('#' :: (nm bStr i ++ (".start").toList))), none, some .inf, none,
            none⟩]⟩],
      .mk (nm bStr i) [⟨some (.num 0), none, some .inf, none, none⟩] (("L3").toList) [] []]
    []

theorem nm_zero (b : Str) : nm b 0 = b := rfl

theorem nm_head (b : Str) (c : Char) (r : Str) (hb : b = c :: r) (i : Nat) :
    ∃ r', nm b i = c :: r' := by
  unfold nm
  by_cases h : i = 0
  · rw [if_pos h]
    exact ⟨r, hb⟩
  · rw [if_neg h]
    exact suffixId_head b c r hb i

theorem pId_head (i : Nat) : ∃ r', pId i = 'P' :: r' :=
  suffixId_head pStr 'P' [] rfl i

theorem nm_ne_cross (b c : Str) (cb cc : Char) (rb rc : Str)
    (hb : b = cb :: rb) (hc : c = cc :: rc) (hne : cb ≠ cc) (i j : Nat) :
    nm b i ≠ nm c j := by
  obtain ⟨r1, h1⟩ := nm_head b cb rb hb i
  obtain ⟨r2, h2⟩ := nm_head c cc rc hc j
  rw [h1, h2]
  intro h
  injection h with hh _
  exact hne hh

theorem pId_ne_nm (b : Str) (cb : Char) (rb : Str) (hb : b = cb :: rb)
    (hne : 'P' ≠ cb) (i j : Nat) : pId i ≠ nm b j := by
  obtain ⟨r1, h1⟩ := pId_head i
  obtain ⟨r2, h2⟩ := nm_head b cb rb hb j
  rw [h1, h2]
  intro h
  injection h with hh _
  exact hne hh

theorem nm_inj_of_ne (b : Str) (i j : Nat) (hij : i ≠ j) : nm b i ≠ nm b j := by
  unfold nm
  by_cases hi : i = 0 <;> by_cases hj : j = 0
  · omega
  · rw [if_pos hi, if_neg hj]
    intro h
    exact suffixId_ne_base b j h.symm
  · rw [if_neg hi, if_pos hj]
    intro h
    exact suffixId_ne_base b i h
  · rw [if_neg hi, if_neg hj]
    intro h
    exact hij (suffixId_inj b i j h)

theorem pId_inj_of_ne (i j : Nat) (hij : i ≠ j) : pId i ≠ pId j := by
  intro h
  exact hij (suffixId_inj pStr i j h)

theorem pId_ne_pStr (i : Nat) : pId i ≠ pStr := suffixId_ne_base pStr i

theorem pId_not_base (i : Nat) : pId i ∉ baseIds := by
  intro h
  obtain ⟨r, hr⟩ := pId_head i
  rw [hr] at h
  simp only [baseIds, List.mem_cons, List.not_mem_nil, or_false] at h
  rcases h with h | h | h | h <;>
    (injection h with hh ht; exact absurd hh (by decide))

theorem cntAfter_pStr (i : Nat) : cntAfter i pStr = i := by
  simp [cntAfter]

theorem cntAfter_base (i : Nat) (b : Str) (hb : b ∈ baseIds) : cntAfter i b = i := by
  have hb' : b = aStr ∨ b = gStr ∨ b = kStr ∨ b = bStr := by
    simpa [baseIds] using hb
  have hbp : b ≠ pStr := by
    rcases hb' with rfl | rfl | rfl | rfl <;> decide
  unfold cntAfter
  rw [if_neg hbp, if_pos hb]

theorem cntAfter_pId (i j : Nat) (hj : ¬ j < i) : cntAfter i (pId j) = 0 := by
  unfold cntAfter
  rw [if_neg (pId_ne_pStr j), if_neg (pId_not_base j)]
  rw [if_neg (by
    simp only [List.any_eq_true, List.mem_range, decide_eq_true_eq]
    rintro ⟨m, hm, heq⟩
    exact pId_inj_of_ne j m (by omega) heq)]

/-- The ids of an expansion. -/
theorem treeIds_expansionAt (i : Nat) :
    treeIds (expansionAt i) = [pId i, nm aStr i, nm gStr i, nm kStr i, nm bStr i] := rfl

/-- Pairwise disjointness of the id sets of two distinct expansions. -/
theorem expansion_ids_disjoint (i j : Nat) (hij : i ≠ j) :
    List.Disjoint (treeIds (expansionAt i)) (treeIds (expansionAt j)) := by
  intro x hxi hxj
  rw [treeIds_expansionAt] at hxi hxj
  have haS : aStr = 'a' :: ("lpha").toList := rfl
  have hgS : gStr = 'g' :: ("amma").toList := rfl
  have hkS : kStr = 'k' :: ("f").toList := rfl
  have hbS : bStr = 'b' :: ("eta").toList := rfl
  simp only [List.mem_cons, List.not_mem_nil, or_false] at hxi hxj
  rcases hxi with rfl | rfl | rfl | rfl | rfl <;>
    rcases hxj with h | h | h | h | h <;>
    first
      | exact pId_inj_of_ne i j hij h
      | exact nm_inj_of_ne aStr i j hij h
      | exact nm_inj_of_ne gStr i j hij h
      | exact nm_inj_of_ne kStr i j hij h
      | exact nm_inj_of_ne bStr i j hij h
      | exact pId_ne_nm aStr 'a' _ haS (by decide) i j h
      | exact pId_ne_nm gStr 'g' _ hgS (by decide) i j h
      | exact pId_ne_nm kStr 'k' _ hkS (by decide) i j h
      | exact pId_ne_nm bStr 'b' _ hbS (by decide) i j h
      | exact pId_ne_nm aStr 'a' _ haS (by decide) j i h.symm
      | exact pId_ne_nm gStr 'g' _ hgS (by decide) j i h.symm
      | exact pId_ne_nm kStr 'k' _ hkS (by decide) j i h.symm
      | exact pId_ne_nm bStr 'b' _ hbS (by decide) j i h.symm
      | exact nm_ne_cross aStr gStr 'a' 'g' _ _ haS hgS (by decide) i j h
      | exact nm_ne_cross aStr kStr 'a' 'k' _ _ haS hkS (by decide) i j h
      | exact nm_ne_cross aStr bStr 'a' 'b' _ _ haS hbS (by decide) i j h
      | exact nm_ne_cross gStr aStr 'g' 'a' _ _ hgS haS (by decide) i j h
      | exact nm_ne_cross gStr kStr 'g' 'k' _ _ hgS hkS (by decide) i j h
      | exact nm_ne_cross gStr bStr 'g' 'b' _ _ hgS hbS (by decide) i j h
      | exact nm_ne_cross kStr aStr 'k' 'a' _ _ hkS haS (by decide) i j h
      | exact nm_ne_cross kStr gStr 'k' 'g' _ _ hkS hgS (by decide) i j h
      | exact nm_ne_cross kStr bStr 'k' 'b' _ _ hkS hbS (by decide) i j h
      | exact nm_ne_cross bStr aStr 'b' 'a' _ _ hbS haS (by decide) i j h
      | exact nm_ne_cross bStr gStr 'b' 'g' _ _ hbS hgS (by decide) i j h
      | exact nm_ne_cross bStr kStr 'b' 'k' _ _ hbS hkS (by decide) i j h

/-- A single clean replacement: rewriting `#beta<tail>` with pattern `beta`
yields `#<r><tail>` when `beta` does not occur in the tail. -/
theorem replaceAll_beta_ref (tail r : Str) (hinf : ¬ (bStr <:+: tail)) :
    replaceAll ('#' :: (bStr ++ tail)) bStr r = '#' :: (r ++ tail) := by
  show replaceAllAux ('#' :: (bStr ++ tail)).length ('#' :: (bStr ++ tail)) bStr r = _
  have h1 : ('#' :: (bStr ++ tail)).length = (bStr ++ tail).length + 1 := by simp
  rw [h1, replaceAllAux]
  rw [if_neg (by
    rintro ⟨hb, hpre⟩
    obtain ⟨t, ht⟩ := List.isPrefixOf_iff_prefix.mp hpre
    rw [show bStr = 'b' :: ('e' :: 't' :: 'a' :: []) from rfl] at ht
    injection ht with hh _
    exact absurd hh (by decide))]
  congr 1
  rw [show bStr ++ tail = 'b' :: ('e' :: 't' :: 'a' :: tail) from rfl]
  rw [show ('b' :: ('e' :: 't' :: 'a' :: tail) : Str).length
    = ('e' :: 't' :: 'a' :: tail : Str).length + 1 from rfl]
  rw [replaceAllAux]
  rw [if_pos ⟨by decide, by
    show List.isPrefixOf bStr ('b' :: ('e' :: 't' :: 'a' :: tail)) = true
    rw [show bStr = 'b' :: ('e' :: 't' :: 'a' :: []) from rfl]
    simp [List.isPrefixOf]⟩]
  congr 1
  rw [show ('b' :: ('e' :: 't' :: 'a' :: tail) : Str).drop bStr.length = tail from rfl]
  exact replaceAllAux_of_not_infix bStr _ tail r (by simp only [List.length_cons]; omega) hinf

/-- The `changedIds` map accumulated over one expansion. -/
def chgAt (i : Nat) : List (Str × Str) :=
  [(pId i, pId i), (aStr, nm aStr i), (gStr, nm gStr i), (nm kStr i, nm kStr i),
    (bStr, nm bStr i)]

/-- Folding the full replacement pass of expansion `i` over a `#beta<tail>`
reference: the identity entries do nothing, `alpha`/`gamma` do not occur,
and the final `beta` entry rewrites the reference to that expansion's
`beta` id. -/
theorem fold_chgAt_ref (i : Nat) (tail : Str)
    (ht1 : ¬ (bStr <:+: tail))
    (ht2 : ¬ (aStr <:+: ('#' :: (bStr ++ tail))))
    (ht3 : ¬ (gStr <:+: ('#' :: (bStr ++ tail)))) :
    List.foldl (fun acc kv => replaceAll acc kv.1 kv.2) ('#' :: (bStr ++ tail)) (chgAt i)
      = '#' :: (nm bStr i ++ tail) := by
  show List.foldl _ _ _ = _
  simp only [chgAt, List.foldl_cons, List.foldl_nil]
  rw [replaceAll_self ('#' :: (bStr ++ tail)) (pId i),
    replaceAll_of_not_infix _ _ _ ht2, replaceAll_of_not_infix _ _ _ ht3,
    replaceAll_self ('#' :: (bStr ++ tail)) (nm kStr i), replaceAll_beta_ref tail _ ht1]

theorem cntAfter_pId_lt (i j : Nat) (hj : j < i) : cntAfter i (pId j) = 1 := by
  unfold cntAfter
  rw [if_neg (pId_ne_pStr j), if_neg (pId_not_base j)]
  rw [if_pos (List.any_eq_true.mpr ⟨j, List.mem_range.mpr hj, by simp⟩)]

theorem cntAfter_succ_ne (i : Nat) (k : Str) (h1 : k ≠ pStr) (h2 : k ∉ baseIds)
    (h3 : k ≠ pId i) : cntAfter (i + 1) k = cntAfter i k := by
  unfold cntAfter
  rw [if_neg h1, if_neg h1, if_neg h2, if_neg h2]
  have : ((List.range (i + 1)).any (fun j => k = pId j))
      = ((List.range i).any (fun j => k = pId j)) := by
    rw [List.range_succ, List.any_append]
    simp [h3]
  rw [this]

/-- The heart of the induction: starting from the `idCount` state reached
after `i` expansions (with the wrapper id already drawn), rewriting one more
part instance produces exactly `expansionAt i` and advances the state. -/
theorem changeTimelineId_expansion (i : Nat) (cnt : Str → Nat)
    (hcnt : ∀ k, cnt k = if k = pStr then i + 1 else cntAfter i k) :
    (changeTimelineId (partToTimelineObj (pId i) pOcc 0 none) cnt).1 = expansionAt i ∧
    (∀ k, (changeTimelineId (partToTimelineObj (pId i) pOcc 0 none) cnt).2 k
      = cntAfter (i + 1) k) := by
  -- disequalities between the ids in play
  have haS : aStr = 'a' :: ("lpha").toList := rfl
  have hgS : gStr = 'g' :: ("amma").toList := rfl
  have hkS : kStr = 'k' :: ("f").toList := rfl
  have hbS : bStr = 'b' :: ("eta").toList := rfl
  have dpa : pId i ≠ aStr := pId_ne_nm aStr 'a' _ haS (by decide) i 0
  have dpg : pId i ≠ gStr := pId_ne_nm gStr 'g' _ hgS (by decide) i 0
  have dpk : pId i ≠ nm kStr i := pId_ne_nm kStr 'k' _ hkS (by decide) i i
  have dpk0 : pId i ≠ kStr := pId_ne_nm kStr 'k' _ hkS (by decide) i 0
  have dpb : pId i ≠ bStr := pId_ne_nm bStr 'b' _ hbS (by decide) i 0
  have dak : aStr ≠ nm kStr i := nm_ne_cross aStr kStr 'a' 'k' _ _ haS hkS (by decide) 0 i
  have dgk : gStr ≠ nm kStr i := nm_ne_cross gStr kStr 'g' 'k' _ _ hgS hkS (by decide) 0 i
  have dkb : nm kStr i ≠ bStr := nm_ne_cross kStr bStr 'k' 'b' _ _ hkS hbS (by decide) i 0
  -- the idCount states threaded through the wrapper and the four object ids
  have v1 : cnt (pId i) = 0 := by
    rw [hcnt (pId i), if_neg (pId_ne_pStr i)]
    exact cntAfter_pId i i (by omega)
  have v2 : idCountSet cnt (pId i) 1 aStr = i := by
    unfold idCountSet
    rw [if_neg (fun h => dpa h.symm), hcnt aStr, if_neg (by decide)]
    exact cntAfter_base i aStr (by simp [baseIds])
  have v3 : idCountSet (idCountSet cnt (pId i) 1) aStr (i + 1) gStr = i := by
    unfold idCountSet
    rw [if_neg (by decide), if_neg (fun h => dpg h.symm), hcnt gStr, if_neg (by decide)]
    exact cntAfter_base i gStr (by simp [baseIds])
  have v4 : idCountSet (idCountSet (idCountSet cnt (pId i) 1) aStr (i + 1)) gStr (i + 1)
      kStr = i := by
    unfold idCountSet
    rw [if_neg (by decide), if_neg (by decide), if_neg (fun h => dpk0 h.symm), hcnt kStr,
      if_neg (by decide)]
    exact cntAfter_base i kStr (by simp [baseIds])
  have v5 : idCountSet (idCountSet (idCountSet (idCountSet cnt (pId i) 1) aStr (i + 1))
      gStr (i + 1)) kStr (i + 1) bStr = i := by
    unfold idCountSet
    rw [if_neg (by decide), if_neg (by decide), if_neg (by decide),
      if_neg (fun h => dpb h.symm), hcnt bStr, if_neg (by decide)]
    exact cntAfter_base i bStr (by simp [baseIds])
  -- the five getUniqueId draws
  have e1 : getUniqueId (pId i) cnt = (pId i, idCountSet cnt (pId i) 1) := by
    unfold getUniqueId
    rw [v1]
    simp
  have e2 : getUniqueId aStr (idCountSet cnt (pId i) 1)
      = (nm aStr i, idCountSet (idCountSet cnt (pId i) 1) aStr (i + 1)) := by
    unfold getUniqueId nm
    rw [v2]
  have e3 : getUniqueId gStr (idCountSet (idCountSet cnt (pId i) 1) aStr (i + 1))
      = (nm gStr i,
        idCountSet (idCountSet (idCountSet cnt (pId i) 1) aStr (i + 1)) gStr (i + 1)) := by
    unfold getUniqueId nm
    rw [v3]
  have e4 : getUniqueId kStr
      (idCountSet (idCountSet (idCountSet cnt (pId i) 1) aStr (i + 1)) gStr (i + 1))
      = (nm kStr i,
        idCountSet (idCountSet (idCountSet (idCountSet cnt (pId i) 1) aStr (i + 1))
          gStr (i + 1)) kStr (i + 1)) := by
    unfold getUniqueId nm
    rw [v4]
  have e5 : getUniqueId bStr
      (idCountSet (idCountSet (idCountSet (idCountSet cnt (pId i) 1) aStr (i + 1))
        gStr (i + 1)) kStr (i + 1))
      = (nm bStr i,
        idCountSet (idCountSet (idCountSet (idCountSet (idCountSet cnt (pId i) 1) aStr
          (i + 1)) gStr (i + 1)) kStr (i + 1)) bStr (i + 1)) := by
    unfold getUniqueId nm
    rw [v5]
  -- the changedIds accumulation
  have s2 : setA [(pId i, pId i)] aStr (nm aStr i)
      = [(pId i, pId i), (aStr, nm aStr i)] := by
    simp [setA, dpa]
  have s3 : setA [(pId i, pId i), (aStr, nm aStr i)] gStr (nm gStr i)
      = [(pId i, pId i), (aStr, nm aStr i), (gStr, nm gStr i)] := by
    simp [setA, dpg, show aStr ≠ gStr by decide]
  have s4 : setA [(pId i, pId i), (aStr, nm aStr i), (gStr, nm gStr i)] (nm kStr i)
      (nm kStr i)
      = [(pId i, pId i), (aStr, nm aStr i), (gStr, nm gStr i), (nm kStr i, nm kStr i)] := by
    simp [setA, dpk, dak, dgk]
  have s5 : setA [(pId i, pId i), (aStr, nm aStr i), (gStr, nm gStr i),
      (nm kStr i, nm kStr i)] bStr (nm bStr i) = chgAt i := by
    simp [setA, chgAt, dpb, dkb, show aStr ≠ bStr by decide, show gStr ≠ bStr by decide]
  -- the inner id-rewriting pass
  have hinner : changeTimelineIdInnerObj [] cnt (partToTimelineObj (pId i) pOcc 0 none)
      = (TimelineObject.mk (pId i)
          [⟨some (.num 0), none, some (.num 1000), none, none⟩] (pId i)
          [TimelineObject.mk (nm aStr i)
            [⟨some (.str ('#' :: (bStr ++ (".end").toList))), none, none, none, none⟩]
            (("L1").toList)
            [TimelineObject.mk (nm gStr i)
              [⟨some (.bin (.str ('#' :: (bStr ++ (".end").toList))) (.num 5)),
                none, none, none, none⟩] (("L2").toList) [] []]
            [⟨nm kStr i,
              [⟨some (.str ('#' :: (bStr ++ (".start").toList))), none, none, none,
                none⟩]⟩],
          TimelineObject.mk (nm bStr i)
            [⟨some (.num 0), none, none, none, none⟩] (("L3").toList) [] []]
          [],
        chgAt i,
        idCountSet (idCountSet (idCountSet (idCountSet (idCountSet cnt (pId i) 1) aStr
          (i + 1)) gStr (i + 1)) kStr (i + 1)) bStr (i + 1)) := by
    show changeTimelineIdInnerObj [] cnt
      (TimelineObject.mk (pId i) [⟨some (.num 0), none, some (.num 1000), none, none⟩]
        (pId i) [alphaObj, betaObj] []) = _
    simp only [changeTimelineIdInnerObj, changeTimelineIdInnerObjs,
      changeTimelineIdInnerKeyframes, changeTimelineIdInnerKeyframe,
      alphaObj, gammaObj, kfObj, betaObj, e1, e2, e3, e4, e5, s2, s3, s4, s5]
    rw [show (setA ([] : List (Str × Str)) (pId i) (pId i)) = [(pId i, pId i)] from rfl,
      s2, s3, s4, s5]
  refine ⟨?_, ?_⟩
  · show (updateTimelineReferences
      (changeTimelineIdInnerObj [] cnt (partToTimelineObj (pId i) pOcc 0 none)).2.1
      (changeTimelineIdInnerObj [] cnt (partToTimelineObj (pId i) pOcc 0 none)).1)
      = expansionAt i
    rw [hinner]
    have f1 := fold_chgAt_ref i ((".end").toList) (by decide) (by decide) (by decide)
    have f2 := fold_chgAt_ref i ((".start").toList) (by decide) (by decide) (by decide)
    simp only [updateTimelineReferences, updateTimelineReferencesList,
      updateTimelineEnable, updateTimelineExpression, updateExpr, jsFalsyExpr,
      expansionAt, List.map_cons, List.map_nil]
    simp only [List.isEmpty, Bool.false_eq_true, if_false, if_neg]
    rw [f1, f2]
    simp
  · intro k
    show (changeTimelineIdInnerObj [] cnt (partToTimelineObj (pId i) pOcc 0 none)).2.2 k
      = cntAfter (i + 1) k
    rw [hinner]
    simp only [idCountSet]
    by_cases hk5 : k = bStr
    · subst hk5
      rw [if_pos rfl]
      rw [cntAfter_base (i + 1) bStr (by simp [baseIds])]
    · rw [if_neg hk5]
      by_cases hk4 : k = kStr
      · subst hk4
        rw [if_pos rfl]
        rw [cntAfter_base (i + 1) kStr (by simp [baseIds])]
      · rw [if_neg hk4]
        by_cases hk3 : k = gStr
        · subst hk3
          rw [if_pos rfl]
          rw [cntAfter_base (i + 1) gStr (by simp [baseIds])]
        · rw [if_neg hk3]
          by_cases hk2 : k = aStr
          · subst hk2
            rw [if_pos rfl]
            rw [cntAfter_base (i + 1) aStr (by simp [baseIds])]
          · rw [if_neg hk2]
            by_cases hk1 : k = pId i
            · subst hk1
              rw [if_pos rfl]
              rw [cntAfter_pId_lt (i + 1) i (by omega)]
            · rw [if_neg hk1]
              rw [hcnt k]
              by_cases hkp : k = pStr
              · subst hkp
                rw [if_pos rfl, cntAfter_pStr]
              · rw [if_neg hkp]
                rw [cntAfter_succ_ne i k hkp (by
                  intro hmem
                  have hb' : k = aStr ∨ k = gStr ∨ k = kStr ∨ k = bStr := by
                    simpa [baseIds] using hmem
                  rcases hb' with rfl | rfl | rfl | rfl
                  · exact hk2 rfl
                  · exact hk3 rfl
                  · exact hk4 rfl
                  · exact hk5 rfl) hk1]

/-- The section-parts loop over `m` repeats of part `P`, starting from the
`idCount` state reached after `i` expansions: it emits
`expansionAt i, …, expansionAt (i+m-1)` and advances the state to
`cntAfter (i+m)`. -/
theorem sectionPartsToObjs_replicate (N m : Nat) : ∀ (i : Nat) (cnt : Str → Nat),
    (∀ k, cnt k = cntAfter i k) →
    (sectionPartsToObjs (pSection N) (List.replicate m pOcc) cnt).1
      = (List.range' i m).map expansionAt ∧
    (∀ k, (sectionPartsToObjs (pSection N) (List.replicate m pOcc) cnt).2 k
      = cntAfter (i + m) k) := by
  induction m with
  | zero =>
    intro i cnt hcnt
    exact ⟨rfl, fun k => hcnt k⟩
  | succ m ih =>
    intro i cnt hcnt
    have hm1 : makeUniqueId pStr cnt = (pId i, idCountSet cnt pStr (i + 1)) := by
      unfold makeUniqueId pId
      rw [hcnt pStr, cntAfter_pStr]
    have hstep := changeTimelineId_expansion i (idCountSet cnt pStr (i + 1)) (by
      intro k
      show (if k = pStr then i + 1 else cnt k) = _
      by_cases hk : k = pStr
      · rw [if_pos hk, if_pos hk]
      · rw [if_neg hk, if_neg hk, hcnt k])
    have ih' := ih (i + 1)
      ((changeTimelineId (partToTimelineObj (pId i) pOcc 0 none)
        (idCountSet cnt pStr (i + 1))).2) hstep.2
    rw [List.replicate_succ, sectionPartsToObjs]
    simp only [show pOcc.part.id = pStr from rfl, hm1,
      show pOcc.startTime - (pSection N).startTime = (0 : Int) from rfl,
      show (pSection N).pauseTime = none from rfl]
    refine ⟨?_, ?_⟩
    · rw [List.range'_succ, List.map_cons, hstep.1, ih'.1]
    · intro k
      rw [ih'.2 k, show i + 1 + m = i + (m + 1) from by omega]

/-- All symbolic reference strings of an expression tree (observer used to
state the reference-resolution property). -/
def exprRefs : Expr → List Str
  | .str s => [s]
  | .bin l r => exprRefs l ++ exprRefs r
  | _ => []

def optExprRefs : Option Expr → List Str
  | some e => exprRefs e
  | none => []

/-- All symbolic reference strings of an enable. -/
def enableRefs (en : TimelineEnable) : List Str :=
  optExprRefs en.start ++ optExprRefs en.endE ++ optExprRefs en.duration ++
    optExprRefs en.repeating ++ optExprRefs en.whileE

mutual
/-- All symbolic reference strings of a timeline-object tree, including the
keyframe enables (observer used to state the reference-resolution
property). -/
def treeRefs : TimelineObject → List Str
  | .mk _ enable _ children keyframes =>
    (enable.foldr (fun en acc => enableRefs en ++ acc) []) ++
      (treeRefsList children ++
        keyframes.foldr
          (fun kf acc =>
            (kf.enable.foldr (fun en acc2 => enableRefs en ++ acc2) []) ++ acc) [])

def treeRefsList : List TimelineObject → List Str
  | [] => []
  | o :: rest => treeRefs o ++ treeRefsList rest
end

/-- The references of an expansion: `alpha` and `gamma` point at the same
expansion's `beta` id's end, the keyframe at its start. -/
theorem treeRefs_expansionAt (i : Nat) :
    treeRefs (expansionAt i)
      = ['#' :: (nm bStr i ++ (".end").toList),
         '#' :: (nm bStr i ++ (".end").toList),
         '#' :: (nm bStr i ++ (".start").toList)] := rfl

/-- Full evaluation of `getTimelineForGroup` on the repeated-part scenario:
one group wrapper, one section wrapper, one section-content object holding
the `n` expansions in order. -/
theorem getTimelineForGroup_prepC3 (n : Nat) (hn : 0 < n) :
    getTimelineForGroup (("G").toList) (some (prepC3 n))
      = some [TimelineObject.mk (("group_G").toList)
          [⟨some (.num 0), none, none, none, none⟩]
          (("__group_G").toList)
          [TimelineObject.mk (("section_G_0").toList)
            [⟨some (.num 0), none, none, none, none⟩]
            (("G").toList)
            [TimelineObject.mk (("section_content_G_0").toList)
              [⟨some (.num 0), none, none, some (.num 3000), none⟩]
              (("G_content").toList)
              ((List.range' 0 n).map expansionAt) []] []] []] := by
  have h0 : ∀ k, (fun _ => (0 : Nat)) k = cntAfter 0 k := by
    intro k
    simp [cntAfter]
  have hparts := sectionPartsToObjs_replicate n n 0 (fun _ => 0) h0
  have hfold1 : (sectionToTimelineObj (pSection n) (("G").toList ++ '_' :: numStr 0)
      (("G").toList) (fun _ => 0)).1
      = [TimelineObject.mk (("section_G_0").toList)
          [⟨some (.num 0), none, none, none, none⟩]
          (("G").toList)
          [TimelineObject.mk (("section_content_G_0").toList)
            [⟨some (.num 0), none, none, some (.num 3000), none⟩]
            (("G_content").toList)
            ((List.range' 0 n).map expansionAt) []] []] := by
    rw [sectionToTimelineObj_eval]
    rw [show (pSection n).parts = List.replicate n pOcc from rfl, hparts.1]
    rw [if_pos (by
      rw [List.length_map, List.length_range']
      omega)]
    simp only [show ("section_").toList ++ (("G").toList ++ '_' :: numStr 0)
        = ("section_G_0").toList from rfl,
      show ("section_content_").toList ++ (("G").toList ++ '_' :: numStr 0)
        = ("section_content_G_0").toList from rfl,
      show (pSection n).startTime = (0 : Int) from rfl,
      show (pSection n).repeating = true from rfl,
      show (pSection n).duration = JNum.fin 3000 from rfl,
      show ("G").toList ++ ("_content").toList = ("G_content").toList from rfl,
      jnumToExpr, if_true]
  show getTimelineForGroup (("G").toList) (some (prepC3 n)) = _
  rw [getTimelineForGroup]
  simp only [prepC3, singleSectionsLoop,
    show (pSection n).stopTime = none from rfl, Option.isSome_none,
    Bool.false_eq_true, if_false,
    show JNum.minJ (.fin (pSection n).startTime) JNum.inf
      = JNum.fin 0 from rfl,
    List.nil_append]
  rw [hfold1]
  rw [buildSingleTimeline]
  rw [if_pos (by simp)]
  simp only [List.map_cons, List.map_nil, rebaseObj, rebaseEnable]
  norm_num

/-- The collision-free behaviour the rewrite machinery is aiming for (the
positive complement of the C3 counterexample): materializing a group whose
prepared play data repeats part `P` `n > 1` times yields exactly the `n`
expansions `expansionAt 0, …, expansionAt (n-1)`; their id sets are pairwise
disjoint, the first expansion keeps every original object id verbatim while
later expansions get counter-suffixed variants, and — the ids of this part
being free of substring/suffix collisions — every symbolic enable reference
(flat string, nested child, l/r expression tree, or keyframe) resolves to
the rewritten `beta` id of its own expansion. -/
theorem idRewrite_substringFree_resolves (n : Nat) (hn : 1 < n) :
    getTimelineForGroup (("G").toList) (some (prepC3 n))
      = some [TimelineObject.mk (("group_G").toList)
          [⟨some (.num 0), none, none, none, none⟩]
          (("__group_G").toList)
          [TimelineObject.mk (("section_G_0").toList)
            [⟨some (.num 0), none, none, none, none⟩]
            (("G").toList)
            [TimelineObject.mk (("section_content_G_0").toList)
              [⟨some (.num 0), none, none, some (.num 3000), none⟩]
              (("G_content").toList)
              ((List.range' 0 n).map expansionAt) []] []] []] ∧
    (∀ i j, i ≠ j →
      List.Disjoint (treeIds (expansionAt i)) (treeIds (expansionAt j))) ∧
    treeIds (expansionAt 0) = [pId 0, aStr, gStr, kStr, bStr] ∧
    (∀ i, 0 < i → treeIds (expansionAt i)
      = [pId i, suffixId aStr i, suffixId gStr i, suffixId kStr i, suffixId bStr i]) ∧
    (∀ i, ∀ r ∈ treeRefs (expansionAt i), ∃ tgt,
      tgt ∈ treeIds (expansionAt i) ∧
      (r = '#' :: (tgt ++ (".end").toList) ∨ r = '#' :: (tgt ++ (".start").toList))) := by
  refine ⟨getTimelineForGroup_prepC3 n (by omega),
    fun i j hij => expansion_ids_disjoint i j hij, rfl, ?_, ?_⟩
  · intro i hi
    rw [treeIds_expansionAt]
    unfold nm
    rw [if_neg (by omega), if_neg (by omega), if_neg (by omega), if_neg (by omega)]
  · intro i r hr
    rw [treeRefs_expansionAt] at hr
    refine ⟨nm bStr i, by rw [treeIds_expansionAt]; simp, ?_⟩
    simp only [List.mem_cons, List.not_mem_nil, or_false] at hr
    rcases hr with rfl | rfl | rfl
    · exact Or.inl rfl
    · exact Or.inl rfl
    · exact Or.inr rfl

theorem idRewrite_substringFree_resolves_instance :
    1 < 2 ∧
    getTimelineForGroup (("G").toList) (some (prepC3 2))
      = some [TimelineObject.mk (("group_G").toList)
          [⟨some (.num 0), none, none, none, none⟩]
          (("__group_G").toList)
          [TimelineObject.mk (("section_G_0").toList)
            [⟨some (.num 0), none, none, none, none⟩]
            (("G").toList)
            [TimelineObject.mk (("section_content_G_0").toList)
              [⟨some (.num 0), none, none, some (.num 3000), none⟩]
              (("G_content").toList)
              ((List.range' 0 2).map expansionAt) []] []] []] :=
  ⟨by decide, (idRewrite_substringFree_resolves 2 (by decide)).1⟩

/-! The substring corruption refuting the original C3 reference-resolution
claim: part `Q` holds objects `a` and `ab`, with `a` referencing `#ab.end`.
The reference rewrite is a global textual replacement
(`new RegExp(oldId, 'g')`), so in the second expansion the entry
`a ↦ a_1` fires inside the reference `#ab.end`, producing `#a_1b.end` —
a reference that matches no object id of any expansion. -/

def qaObj : TimelineObject :=
  .mk (("a").toList) [⟨some (.str (("#ab.end").toList)), none, none, none, none⟩]
    (("L1").toList) [] []

def qbObj : TimelineObject :=
  .mk (("ab").toList) [⟨some (.num 0), none, none, none, none⟩] (("L2").toList) [] []

def qPart : PartData := ⟨("Q").toList, false, some (.fin 1000), [⟨qaObj⟩, ⟨qbObj⟩]⟩

def qOcc : GroupPreparedPlayDataPart := ⟨0, qPart⟩

def qSection : GroupPreparedPlayDataSection :=
  ⟨0, none, none, none, true, .fin 3000, [qOcc, qOcc]⟩

def qPrep : GroupPreparedPlayDataSingle := ⟨[qSection]⟩

/-- The timeline the pipeline materializes for `qPrep` (computed below). -/
def qTimeline : List TimelineObject :=
  [.mk (("group_G").toList)
    [⟨some (.num 0), none, none, none, none⟩]
    (("__group_G").toList)
    [.mk (("section_G_0").toList)
      [⟨some (.num 0), none, none, none, none⟩]
      (("G").toList)
      [.mk (("section_content_G_0").toList)
        [⟨some (.num 0), none, none, some (.num 3000), none⟩]
        (("G_content").toList)
        [.mk (("Q_0").toList)
          [⟨some (.num 0), none, some .inf, none, none⟩]
          (("Q_0").toList)
          [.mk (("a").toList)
            [⟨some (.str (("#ab.end").toList)), none, some .inf, none, none⟩]
            (("L1").toList) [] [],
           .mk (("ab").toList)
            [⟨some (.num 0), none, some .inf, none, none⟩]
            (("L2").toList) [] []]
          [],
         .mk (("Q_1").toList)
          [⟨some (.num 0), none, some .inf, none, none⟩]
          (("Q_1").toList)
          [.mk (("a_1").toList)
            [⟨some (.str (("#a_1b.end").toList)), none, some .inf, none, none⟩]
            (("L1").toList) [] [],
           .mk (("ab_1").toList)
            [⟨some (.num 0), none, some .inf, none, none⟩]
            (("L2").toList) [] []]
          []]
        []]
      []]
    []]

/-! The id-collision mode refuting the disjointness half of C3: part `X`
holds objects `x` and `x_1`.  Expansion 0 keeps both verbatim; in expansion
1 `getUniqueId` suffixes `x` with the running count, producing `x_1` — the
verbatim id of expansion 0's second object.  The two expansions' id sets
are not disjoint. -/

def xaObj : TimelineObject :=
  .mk (("x").toList) [⟨some (.num 0), none, none, none, none⟩] (("L1").toList) [] []

def xbObj : TimelineObject :=
  .mk (("x_1").toList) [⟨some (.num 0), none, none, none, none⟩] (("L2").toList) [] []

def xPart : PartData := ⟨("X").toList, false, some (.fin 1000), [⟨xaObj⟩, ⟨xbObj⟩]⟩

def xOcc : GroupPreparedPlayDataPart := ⟨0, xPart⟩

def xSection : GroupPreparedPlayDataSection :=
  ⟨0, none, none, none, true, .fin 3000, [xOcc, xOcc]⟩

def xPrep : GroupPreparedPlayDataSingle := ⟨[xSection]⟩

/-- The first expansion of part `X` as materialized (computed below). -/
def xExp0 : TimelineObject :=
  .mk (("X_0").toList)
    [⟨some (.num 0), none, some .inf, none, none⟩]
    (("X_0").toList)
    [.mk (("x").toList)
      [⟨some (.num 0), none, some .inf, none, none⟩] (("L1").toList) [] [],
     .mk (("x_1").toList)
      [⟨some (.num 0), none, some .inf, none, none⟩] (("L2").toList) [] []]
    []

/-- The second expansion of part `X` as materialized (computed below): its
rewrite of object `x` is `x_1`, colliding with `xExp0`'s verbatim `x_1`. -/
def xExp1 : TimelineObject :=
  .mk (("X_1").toList)
    [⟨some (.num 0), none, some .inf, none, none⟩]
    (("X_1").toList)
    [.mk (("x_1").toList)
      [⟨some (.num 0), none, some .inf, none, none⟩] (("L1").toList) [] [],
     .mk (("x_1_1").toList)
      [⟨some (.num 0), none, some .inf, none, none⟩] (("L2").toList) [] []]
    []

/-- The timeline the pipeline materializes for `xPrep` (computed below). -/
def xTimeline : List TimelineObject :=
  [.mk (("group_G").toList)
    [⟨some (.num 0), none, none, none, none⟩]
    (("__group_G").toList)
    [.mk (("section_G_0").toList)
      [⟨some (.num 0), none, none, none, none⟩]
      (("G").toList)
      [.mk (("section_content_G_0").toList)
        [⟨some (.num 0), none, none, some (.num 3000), none⟩]
        (("G_content").toList)
        [xExp0, xExp1]
        []]
      []]
    []]

/-- **C3 counterexample**, both halves of the claim refuted on legal inputs.
Reference resolution: on `qPrep` (part with objects `a` and `ab`, `a`
referencing `#ab.end`, repeated twice) the materialized timeline contains
the reference `#a_1b.end`, and no object or keyframe id anywhere in the
timeline makes that reference an `.end` or `.start` reference to it — the
textual id rewrite corrupted the second expansion's reference instead of
resolving it within its own expansion.  Disjointness: on `xPrep` (part with
objects `x` and `x_1`, repeated twice) the id `x_1` belongs to both
expansions' id sets, so the expansions do not receive pairwise disjoint
object-id namespaces. -/
theorem C3_counterexample :
    (getTimelineForGroup (("G").toList) (some qPrep) = some qTimeline ∧
      ("#a_1b.end").toList ∈ treeRefsList qTimeline ∧
      (∀ tgt ∈ treeIdsList qTimeline,
        ('#' :: (tgt ++ (".end").toList)) ≠ ("#a_1b.end").toList ∧
        ('#' :: (tgt ++ (".start").toList)) ≠ ("#a_1b.end").toList)) ∧
    (getTimelineForGroup (("G").toList) (some xPrep) = some xTimeline ∧
      ("x_1").toList ∈ treeIds xExp0 ∧
      ("x_1").toList ∈ treeIds xExp1) :=
  ⟨⟨rfl, by decide, by decide⟩, ⟨rfl, by decide, by decide⟩⟩

end SuperConductor
